import Mathlib

/-!
# Boot sequence of the scoring engine (`dwayne.go`)

A shallow embedding of `main` in `src/dwayne.go`: the configuration checks, the
team ID assignment loop, the first-write-wins seeding of the `TeamData` and
`Inject` tables, the route table and the start of the scheduler and the server.

Everything `main` obtains from outside this file (the configuration reader and
checker, the timezone database, the SQLite store, the clock, `injects.conf`) is
an oracle of `Env`; the effects of `main` are recorded, in program order, in the
`trace` of the `World` it threads through.
-/

namespace Dwayne

/-! ## Constants (lines 20–24) -/

/-- Base delay between scoring rounds, `defaultDelay = 60`. -/
def defaultDelay : Nat := 60

/-- Upper bound of the random jitter added to the delay, `defaultJitter = 30`. -/
def defaultJitter : Nat := 30

/-- Address of the API endpoint, `apiEndpoint`. -/
def apiEndpoint : String := "http://172.16.1.122"

/-! ## Machine integers -/

/-- Largest value of Go's `int` on a 64-bit target; `len` of a slice never exceeds it. -/
def maxInt : Nat := 2 ^ 63 - 1

/-- Go's conversion `uint(x)` of a non-negative `int` on a 64-bit target. -/
def uint (x : Nat) : Nat := x % 2 ^ 64

/-! ## Data model

The record types are declared outside `dwayne.go`; only the fields `main` reads
or writes are named, the remaining columns are carried as one value. -/

/-- A `TeamData` row: the `ID` that `main` assigns and the remaining columns. -/
structure TeamData (α : Type) where
  ID : Nat
  cols : α
deriving DecidableEq

/-- An `Inject` row: the three fields set by `main` and the remaining columns. -/
structure Inject (β : Type) where
  Time : Nat
  Title : String
  Body : String
  cols : β
deriving DecidableEq

/-- Type `injectList` (lines 26–28): the decoded shape of `injects.conf`. -/
structure injectList (β : Type) where
  Inject : List (Inject β)
deriving DecidableEq

/-- The fields of `config` that `main` uses. -/
structure config (α : Type) where
  Team : List (TeamData α)
  Timezone : String
  Persists : Bool
  EasyPCR : Bool
  NoPasswords : Bool
deriving DecidableEq

/-- The handlers `main` binds to routes, named as in the source; the anonymous
functions are named after the template they render. -/
inductive Handler
  | viewStatus | infoPage | loginPage | forbiddenPage | login
  | scorePersist | viewPersist | createInject
  | logout | exportTeamData | viewTeam | viewCheck | viewUptime
  | viewPCR | submitPCR | viewRed | submitRed
  | viewInjects | injectFeed | newInjectPage | newInject | viewInject
  | submitInject | invalidateInject | gradeInject | submitInjectGrade
  | submissionsDir | viewSettings | viewResets | submitReset
deriving DecidableEq

/-- One registered route; `auth` is true for the `authRoutes` group. -/
structure Route where
  method : String
  path : String
  handler : Handler
  auth : Bool
deriving DecidableEq

/-- What reading and decoding `./injects.conf` yields: `os.ReadFile` fails,
`toml.Decode` fails, or the decoded list. -/
inductive ConfFile (β : Type)
  | unreadable
  | malformed
  | decoded (l : injectList β)
deriving DecidableEq

/-- The effects of `main`, in the order the trace records them. A call that can
fail carries its outcome: `ok` is true when the error it returns is nil. -/
inductive Event (α β : Type)
  | readConfig
  | checkConfig (ok : Bool)
  | fatal (msg : String)
  | loadLocation (ok : Bool)
  | openDB (ok : Bool)
  | autoMigrate
  | makePersistHits
  | assignID (i id : Nat)
  | findTeams (ok : Bool)
  | createTeam (t : TeamData α) (ok : Bool)
  | initCtMutex
  | findInjects (ok : Bool)
  | errorPrint
  | debugPrint
  | createInject (x : Inject β) (ok : Bool)
  | readFile (ok : Bool)
  | decode (ok : Bool)
  | goScore
  | run
deriving DecidableEq

/-- How `main` ends before reaching `r.Run`: `log.Fatal` (the process exits) or
a `return` from `main`. -/
inductive Halt
  | fatal
  | returned
deriving DecidableEq

/-- The outside of `main`: the functions defined in other files and the
behaviour of the libraries at this boot. -/
structure Env (α β : Type) where
  /-- The configuration `readConfig` leaves in `dwConf`. -/
  readConfig : config α
  /-- `checkConfig`: `none` for an error, else `dwConf` as the call leaves it. -/
  checkConfig : config α → Option (config α)
  /-- Whether `time.LoadLocation` succeeds on a timezone name. -/
  loadLocation : String → Bool
  /-- Whether `gorm.Open` succeeds. -/
  openOk : Bool
  /-- Whether the `Find` on the `TeamData` table succeeds. -/
  findTeamsOk : Bool
  /-- Whether a `Create` of a `TeamData` row succeeds on the current table. -/
  createTeamOk : List (TeamData α) → TeamData α → Bool
  /-- Whether the `Find` on the `Inject` table succeeds. -/
  findInjectsOk : Bool
  /-- Whether a `Create` of an `Inject` row succeeds on the current table. -/
  createInjectOk : List (Inject β) → Inject β → Bool
  /-- The value of `time.Now()`. -/
  now : Nat
  /-- The zero value of the `Inject` columns a literal leaves unset. -/
  zeroCols : β
  /-- The outcome of reading and decoding `./injects.conf`. -/
  injectsConf : ConfFile β

/-- The state `main` acts on: the globals, the two tables of `dwayne.db`, the
route table and the trace of effects. -/
structure World (α β : Type) where
  dwConf : config α
  teamTable : List (TeamData α)
  injectTable : List (Inject β)
  /-- The global `persistHits`: `none` is the nil map. -/
  persistHits : Option (List (Nat × List (String × List Nat)))
  /-- Whether `ct.Mutex` points to a mutex. -/
  ctMutex : Bool
  routes : List Route
  trace : List (Event α β)

variable {α β γ : Type}

/-- Record one effect at the end of the trace. -/
def World.emit (w : World α β) (e : Event α β) : World α β :=
  { w with trace := w.trace ++ [e] }

/-- The world before `main` runs: `dwConf = &config{}`, `ct` zero, no route,
the tables as persisted in `dwayne.db` and `persistHits` as declared. -/
def World.boot (teamTable : List (TeamData α)) (injectTable : List (Inject β))
    (persistHits : Option (List (Nat × List (String × List Nat)))) : World α β :=
  { dwConf := { Team := [], Timezone := "", Persists := false, EasyPCR := false,
                NoPasswords := false }
    teamTable := teamTable
    injectTable := injectTable
    persistHits := persistHits
    ctMutex := false
    routes := []
    trace := [] }

/-! ## Storage operations -/

/-- The call `db.Find(&rows)` without conditions: `(res.Error == nil, rows)`, every row
of the table on success and the untouched empty slice on failure. -/
def dbFind (ok : Bool) (table : List γ) : Bool × List γ :=
  if ok then (true, table) else (false, [])

/-- The call `db.Create(&row)`: `(res.Error == nil, table afterwards)`. -/
def dbCreate (ok : Bool) (table : List γ) (row : γ) : Bool × List γ :=
  if ok then (true, table ++ [row]) else (false, table)

/-! ## The blocks of `main` -/

/-- Lines 76–78, the slice part: `for i := range Team { Team[i].ID = uint(i + 1) }`. -/
def assignTeamIDs (teams : List (TeamData α)) : List (TeamData α) :=
  (List.range teams.length).foldl
    (fun ts i => ts.modify (fun t => { t with ID := uint (i + 1) }) i) teams

/-- Lines 76–78 on the world: the loop over `dwConf.Team`, one event per iteration. -/
def assignIDs (w : World α β) : World α β :=
  { w with
    dwConf := { w.dwConf with Team := assignTeamIDs w.dwConf.Team }
    trace := w.trace ++ (List.range w.dwConf.Team.length).map
      (fun i => Event.assignID i (uint (i + 1))) }

/-- Lines 84–88: `for _, team := range dwConf.Team`, creating each row and
ending the process at the first failing create. -/
def createTeams (env : Env α β) :
    List (TeamData α) → World α β → Except (Halt × World α β) (World α β)
  | [], w => .ok w
  | team :: rest, w =>
    let res := dbCreate (env.createTeamOk w.teamTable team) w.teamTable team
    let w := w.emit (.createTeam team res.1)
    if res.1 then createTeams env rest { w with teamTable := res.2 }
    else .error (.fatal, w.emit (.fatal "unable to save team in database"))

/-- Lines 81–89: the `TeamData` seeding step. -/
def seedTeams (env : Env α β) (w : World α β) : Except (Halt × World α β) (World α β) :=
  let res := dbFind env.findTeamsOk w.teamTable
  let w := w.emit (.findTeams res.1)
  if res.1 && res.2.length == 0 then createTeams env w.dwConf.Team w
  else .ok w

/-- Lines 115–184: the routes in registration order. -/
def registerRoutes (c : config α) : List Route :=
  [ ⟨"GET", "/", .viewStatus, false⟩,
    ⟨"GET", "/info", .infoPage, false⟩,
    ⟨"GET", "/login", .loginPage, false⟩,
    ⟨"GET", "/forbidden", .forbiddenPage, false⟩,
    ⟨"POST", "/login", .login, false⟩ ]
  ++ (if c.Persists then
        [ ⟨"GET", "/persist/:token", .scorePersist, false⟩,
          ⟨"GET", "/persist", .viewPersist, false⟩ ]
      else [])
  ++ [ ⟨"POST", "/injects", .createInject, false⟩,
       ⟨"GET", "/logout", .logout, true⟩,
       ⟨"GET", "/export/:team", .exportTeamData, true⟩,
       ⟨"GET", "/team/:team", .viewTeam, true⟩,
       ⟨"GET", "/team/:team/:check", .viewCheck, true⟩,
       ⟨"GET", "/uptime/:team", .viewUptime, true⟩,
       ⟨"GET", "/pcr", .viewPCR, true⟩ ]
  ++ (if c.EasyPCR then [ ⟨"POST", "/pcr", .submitPCR, true⟩ ] else [])
  ++ [ ⟨"GET", "/red", .viewRed, true⟩,
       ⟨"POST", "/red", .submitRed, true⟩,
       ⟨"GET", "/injects", .viewInjects, true⟩,
       ⟨"GET", "/injects/feed", .injectFeed, true⟩,
       ⟨"GET", "/injects/new", .newInjectPage, true⟩,
       ⟨"POST", "/injects/new", .newInject, true⟩,
       ⟨"GET", "/injects/view/:inject", .viewInject, true⟩,
       ⟨"POST", "/injects/view/:inject", .submitInject, true⟩,
       ⟨"POST", "/injects/view/:inject/:submission/invalid", .invalidateInject, true⟩,
       ⟨"GET", "/injects/view/:inject/:submission/grade", .gradeInject, true⟩,
       ⟨"POST", "/injects/view/:inject/:submission/grade", .submitInjectGrade, true⟩,
       ⟨"GET", "/submissions", .submissionsDir, true⟩,
       ⟨"GET", "/settings", .viewSettings, true⟩,
       ⟨"GET", "/reset", .viewResets, true⟩,
       ⟨"POST", "/reset/:id", .submitReset, true⟩ ]

/-- One `db.Create(&inject)` of lines 200–204 and 218–222: on failure the error
is printed and `main` returns. -/
def createInject (env : Env α β) (x : Inject β) (w : World α β) :
    Except (Halt × World α β) (World α β) :=
  let res := dbCreate (env.createInjectOk w.injectTable x) w.injectTable x
  let w := w.emit (.createInject x res.1)
  if res.1 then .ok { w with injectTable := res.2 }
  else .error (.returned, w.emit .errorPrint)

/-- Lines 217–223: `for _, inject := range configInjects.Inject`. -/
def createInjects (env : Env α β) :
    List (Inject β) → World α β → Except (Halt × World α β) (World α β)
  | [], w => .ok w
  | inject :: rest, w =>
    match createInject env inject w with
    | .ok w => createInjects env rest w
    | .error e => .error e

/-- Lines 195–199: the literal `pwChangeInject`. -/
def pwChangeInject (env : Env α β) : Inject β :=
  { Time := env.now, Title := "Password Changes",
    Body := "Submit your password changes here!", cols := env.zeroCols }

/-- Lines 194–205: the default inject, unless `NoPasswords` is set. -/
def seedPasswordInject (env : Env α β) (w : World α β) :
    Except (Halt × World α β) (World α β) :=
  if !w.dwConf.NoPasswords then createInject env (pwChangeInject env) w
  else .ok w

/-- Lines 207–225: the injects of `./injects.conf`. -/
def seedConfigInjects (env : Env α β) (w : World α β) :
    Except (Halt × World α β) (World α β) :=
  match env.injectsConf with
  | .unreadable => .ok ((w.emit (.readFile false)).emit .debugPrint)
  | .malformed =>
    .error (.fatal, ((w.emit (.readFile true)).emit (.decode false)).emit (.fatal "toml decode"))
  | .decoded configInjects =>
    createInjects env configInjects.Inject ((w.emit (.readFile true)).emit (.decode true))

/-- Lines 186–228: the `Inject` seeding step. -/
def seedInjects (env : Env α β) (w : World α β) : Except (Halt × World α β) (World α β) :=
  let res := dbFind env.findInjectsOk w.injectTable
  let w := w.emit (.findInjects res.1)
  if !res.1 then .error (.returned, w.emit .errorPrint)
  else if res.2.length == 0 then
    match seedPasswordInject env w with
    | .ok w => seedConfigInjects env w
    | .error e => .error e
  else .ok (w.emit .debugPrint)

/-- Lines 50–67: configuration, timezone and database, each fatal on failure. -/
def startup (env : Env α β) (w : World α β) : Except (Halt × World α β) (World α β) :=
  let w := { w.emit .readConfig with dwConf := env.readConfig }
  match env.checkConfig w.dwConf with
  | none => .error (.fatal, (w.emit (.checkConfig false)).emit (.fatal "illegal config"))
  | some c =>
    let w := { w.emit (.checkConfig true) with dwConf := c }
    let w := w.emit (.loadLocation (env.loadLocation w.dwConf.Timezone))
    if !env.loadLocation w.dwConf.Timezone then
      .error (.fatal, w.emit (.fatal "invalid timezone"))
    else
      let w := w.emit (.openDB env.openOk)
      if !env.openOk then .error (.fatal, w.emit (.fatal "Failed to connect database!"))
      else .ok w

/-- Lines 69–73: schema migration and the allocation of `persistHits`. -/
def allocPersistHits (w : World α β) : World α β :=
  let w := w.emit .autoMigrate
  if w.dwConf.Persists then { w.emit .makePersistHits with persistHits := some [] } else w

/-- Lines 91–184: the credential table mutex and the router. -/
def setupRouter (w : World α β) : World α β :=
  let w := { w.emit .initCtMutex with ctMutex := true }
  { w with routes := w.routes ++ registerRoutes w.dwConf }

/-- Lines 230–231: `go Score(dwConf)` and `r.Run(":80")`. -/
def serve (w : World α β) : World α β :=
  (w.emit .goScore).emit .run

/-- The function `main` (lines 50–232): `.ok w` when it reaches `r.Run`, `.error (h, w)`
when it ends before, by `log.Fatal` or by `return`. -/
def main (env : Env α β) (w : World α β) : Except (Halt × World α β) (World α β) :=
  match startup env w with
  | .error e => .error e
  | .ok w =>
    let w := allocPersistHits w
    let w := assignIDs w
    match seedTeams env w with
    | .error e => .error e
    | .ok w =>
      let w := setupRouter w
      match seedInjects env w with
      | .error e => .error e
      | .ok w => .ok (serve w)

/-- The world `main` leaves, however it ends. -/
def finalWorld : Except (Halt × World α β) (World α β) → World α β
  | .ok w => w
  | .error (_, w) => w

/-- Whether `main` reached `r.Run`. -/
def serving : Except (Halt × World α β) (World α β) → Bool
  | .ok _ => true
  | .error _ => false

/-- The rows passed to `db.Create` for the `Inject` table, in order. -/
def createdInjects : List (Event α β) → List (Inject β)
  | [] => []
  | .createInject x _ :: es => x :: createdInjects es
  | _ :: es => createdInjects es

/-- The rows passed to `db.Create` for the `TeamData` table, in order. -/
def createdTeams : List (Event α β) → List (TeamData α)
  | [] => []
  | .createTeam t _ :: es => t :: createdTeams es
  | _ :: es => createdTeams es

/-- Lines 50–184 of `main`: everything before the query of the persisted injects. -/
def beforeInjects (env : Env α β) (w : World α β) : Except (Halt × World α β) (World α β) :=
  match startup env w with
  | .error e => .error e
  | .ok w =>
    match seedTeams env (assignIDs (allocPersistHits w)) with
    | .error e => .error e
    | .ok w => .ok (setupRouter w)

/-- The events of lines 50–89 other than the fatal log. -/
def Event.setup : Event α β → Bool
  | .readConfig | .checkConfig _ | .loadLocation _ | .openDB _ | .autoMigrate
  | .makePersistHits | .assignID _ _ | .findTeams _ => true
  | .createTeam _ _ => true
  | _ => false

/-- The events of lines 186–228. -/
def Event.seeding : Event α β → Bool
  | .findInjects _ | .errorPrint | .debugPrint | .createInject _ _ | .readFile _
  | .decode _ | .fatal _ => true
  | _ => false

/-- The three storage failures after which `main` logs and stops: a failed `TeamData`
create, a failed query of the persisted injects, a failed inject create. A failed
`TeamData` query is not among them: line 83 skips the seeding and `main` goes on. -/
def Event.storageFailure : Event α β → Bool
  | .createTeam _ ok => !ok
  | .findInjects ok => !ok
  | .createInject _ ok => !ok
  | _ => false

/-- The injects `toml.Decode` delivers from `./injects.conf`: those of the decoded
list, none when the file is unreadable or undecodable. -/
def ConfFile.injects : ConfFile β → List (Inject β)
  | .decoded l => l.Inject
  | _ => []

/-! ## A sample boot

Three configured teams carrying stale IDs, one configured inject, every library
call succeeding. -/

/-- Three teams as a configuration file may list them. -/
def sampleTeams : List (TeamData String) :=
  [⟨0, "alpha"⟩, ⟨0, "bravo"⟩, ⟨9, "charlie"⟩]

/-- A configuration with the persistence routes enabled. -/
def sampleConf : config String :=
  { Team := sampleTeams, Timezone := "America/Chicago", Persists := true,
    EasyPCR := false, NoPasswords := false }

/-- One inject as `injects.conf` may list it. -/
def sampleInject : Inject Unit :=
  { Time := 1700003600, Title := "Firewall audit", Body := "Submit your ruleset", cols := () }

/-- A boot at which every call succeeds. -/
def sampleEnv : Env String Unit :=
  { readConfig := sampleConf
    checkConfig := fun c => some c
    loadLocation := fun _ => true
    openOk := true
    findTeamsOk := true
    createTeamOk := fun _ _ => true
    findInjectsOk := true
    createInjectOk := fun _ _ => true
    now := 1700000000
    zeroCols := ()
    injectsConf := .decoded ⟨[sampleInject]⟩ }

/-- The sample boot with a database that rejects the second `TeamData` row. -/
def teamCreateFails : Env String Unit :=
  { sampleEnv with createTeamOk := fun tbl _ => tbl.length == 0 }

/-- The sample boot with a failing query of the persisted injects. -/
def injectQueryFails : Env String Unit :=
  { sampleEnv with findInjectsOk := false }

/-- The sample boot with a database that rejects every `Inject` row. -/
def injectCreateFails : Env String Unit :=
  { sampleEnv with createInjectOk := fun _ _ => false }

/-- The sample boot with a configuration that `checkConfig` rejects. -/
def badConfig : Env String Unit :=
  { sampleEnv with checkConfig := fun _ => none }

/-- The world of a first boot: empty tables, `persistHits` nil. -/
def firstBoot : World String Unit := World.boot [] [] none

/-! ## The ID assignment loop -/

/-- The loop of lines 76–78 stopped after `k` iterations. -/
theorem assignLoop_getElem? (teams : List (TeamData α)) (k i : Nat) :
    ((List.range k).foldl
      (fun ts i => ts.modify (fun t => { t with ID := uint (i + 1) }) i) teams)[i]?
      = (teams[i]?).map (fun t => if i < k then { t with ID := uint (i + 1) } else t) := by
  induction k generalizing i with
  | zero => simp
  | succ k ih =>
    rw [List.range_succ, List.foldl_append]
    simp only [List.foldl_cons, List.foldl_nil, List.getElem?_modify, ih]
    cases h : teams[i]? with
    | none => simp
    | some t =>
      by_cases hki : k = i
      · subst hki; simp
      · by_cases hlt : i < k
        · have : i < k + 1 := by omega
          simp [hki, hlt, this]
        · have : ¬ i < k + 1 := by omega
          simp [hki, hlt, this]

theorem assignTeamIDs_getElem? (teams : List (TeamData α)) (i : Nat) :
    (assignTeamIDs teams)[i]? = (teams[i]?).map (fun t => { t with ID := uint (i + 1) }) := by
  unfold assignTeamIDs
  rw [assignLoop_getElem?]
  cases h : teams[i]? with
  | none => simp
  | some t =>
    have : i < teams.length := by
      by_contra hc
      rw [List.getElem?_eq_none (by omega)] at h
      cases h
    simp [this]

theorem assignTeamIDs_length (teams : List (TeamData α)) :
    (assignTeamIDs teams).length = teams.length := by
  by_contra hne
  rcases Nat.lt_or_gt_of_ne hne with h | h
  · have h1 := assignTeamIDs_getElem? teams (assignTeamIDs teams).length
    rw [List.getElem?_eq_none (le_refl _), List.getElem?_eq_getElem h] at h1
    cases h1
  · have h1 := assignTeamIDs_getElem? teams teams.length
    rw [List.getElem?_eq_none (le_refl _), List.getElem?_eq_getElem h] at h1
    cases h1

theorem uint_of_le_maxInt {x : Nat} (h : x ≤ maxInt) : uint x = x := by
  unfold uint
  apply Nat.mod_eq_of_lt
  unfold maxInt at h
  omega

theorem assignTeamIDs_map_ID (teams : List (TeamData α)) (hlen : teams.length ≤ maxInt) :
    (assignTeamIDs teams).map (fun t => t.ID) = (List.range teams.length).map (fun i => i + 1) := by
  apply List.ext_getElem?
  intro i
  simp only [List.getElem?_map, assignTeamIDs_getElem?, List.getElem?_range]
  by_cases h : i < teams.length
  · rw [List.getElem?_eq_getElem h, List.getElem?_eq_getElem (by simpa using h)]
    simp [uint_of_le_maxInt (show i + 1 ≤ maxInt by omega)]
  · rw [List.getElem?_eq_none (by omega), List.getElem?_eq_none (by simpa using h)]
    simp

theorem forall_false_of_all {p : γ → Bool} {l : List γ}
    (h : l.all (fun e => !p e) = true) : ∀ e ∈ l, p e = false := by
  intro e he
  have := List.all_eq_true.mp h e he
  simpa using this

theorem assignTeamIDs_ID_at (teams : List (TeamData α)) (hlen : teams.length ≤ maxInt)
    (i : Nat) (hi : i < teams.length) :
    ((assignTeamIDs teams)[i]?).map (fun t => t.ID) = some (i + 1) := by
  rw [← List.getElem?_map, assignTeamIDs_map_ID teams hlen, List.getElem?_map,
    List.getElem?_eq_getElem (by simpa using hi)]
  simp

/-! ## The create loops -/

theorem createTeams_spec (env : Env α β) (ts : List (TeamData α)) (w : World α β) :
    createTeams env ts w
        = .ok { w with teamTable := w.teamTable ++ ts
                       trace := w.trace ++ ts.map (fun t => Event.createTeam t true) }
    ∨ ∃ done t rest, ts = done ++ t :: rest
        ∧ env.createTeamOk (w.teamTable ++ done) t = false
        ∧ createTeams env ts w
        = .error (.fatal,
            { w with teamTable := w.teamTable ++ done
                     trace := w.trace ++ done.map (fun t => Event.createTeam t true)
                        ++ [Event.createTeam t false,
                            Event.fatal "unable to save team in database"] }) := by
  induction ts generalizing w with
  | nil => left; simp [createTeams]
  | cons t ts ih =>
    cases hok : env.createTeamOk w.teamTable t with
    | false =>
      right
      refine ⟨[], t, ts, by simp, by simpa using hok, ?_⟩
      simp [createTeams, dbCreate, hok, World.emit]
    | true =>
      rcases ih { w with teamTable := w.teamTable ++ [t]
                         trace := w.trace ++ [Event.createTeam t true] }
        with h | ⟨done, u, rest, hk, hu, h⟩
      · left
        simp [createTeams, dbCreate, hok, World.emit, h]
      · right
        refine ⟨t :: done, u, rest, by simp [hk], by simpa using hu, ?_⟩
        simp [createTeams, dbCreate, hok, World.emit, h]

theorem createTeams_ok (env : Env α β) (hok : ∀ tbl t, env.createTeamOk tbl t = true)
    (ts : List (TeamData α)) (w : World α β) :
    createTeams env ts w
      = .ok { w with teamTable := w.teamTable ++ ts
                     trace := w.trace ++ ts.map (fun t => Event.createTeam t true) } := by
  induction ts generalizing w with
  | nil => simp [createTeams]
  | cons t ts ih => simp [createTeams, dbCreate, hok, World.emit, ih]

theorem createInjects_spec (env : Env α β) (xs : List (Inject β)) (w : World α β) :
    createInjects env xs w
        = .ok { w with injectTable := w.injectTable ++ xs
                       trace := w.trace ++ xs.map (fun x => Event.createInject x true) }
    ∨ ∃ done x rest, xs = done ++ x :: rest
        ∧ env.createInjectOk (w.injectTable ++ done) x = false
        ∧ createInjects env xs w
        = .error (.returned,
            { w with injectTable := w.injectTable ++ done
                     trace := w.trace ++ done.map (fun x => Event.createInject x true)
                        ++ [Event.createInject x false, Event.errorPrint] }) := by
  induction xs generalizing w with
  | nil => left; simp [createInjects]
  | cons x xs ih =>
    cases hok : env.createInjectOk w.injectTable x with
    | false =>
      right
      refine ⟨[], x, xs, by simp, by simpa using hok, ?_⟩
      simp [createInjects, createInject, dbCreate, hok, World.emit]
    | true =>
      rcases ih { w with injectTable := w.injectTable ++ [x]
                         trace := w.trace ++ [Event.createInject x true] }
        with h | ⟨done, u, rest, hk, hu, h⟩
      · left
        simp [createInjects, createInject, dbCreate, hok, World.emit, h]
      · right
        refine ⟨x :: done, u, rest, by simp [hk], by simpa using hu, ?_⟩
        simp [createInjects, createInject, dbCreate, hok, World.emit, h]

theorem createInjects_ok (env : Env α β) (hok : ∀ tbl x, env.createInjectOk tbl x = true)
    (xs : List (Inject β)) (w : World α β) :
    createInjects env xs w
      = .ok { w with injectTable := w.injectTable ++ xs
                     trace := w.trace ++ xs.map (fun x => Event.createInject x true) } := by
  induction xs generalizing w with
  | nil => simp [createInjects]
  | cons x xs ih => simp [createInjects, createInject, dbCreate, hok, World.emit, ih]

/-! ## The blocks before the inject query -/

theorem main_eq (env : Env α β) (w : World α β) :
    main env w =
      match beforeInjects env w with
      | .error e => .error e
      | .ok w =>
        match seedInjects env w with
        | .error e => .error e
        | .ok w => .ok (serve w) := by
  unfold main beforeInjects
  cases startup env w with
  | error e => rfl
  | ok w1 =>
    simp only
    cases seedTeams env (assignIDs (allocPersistHits w1)) with
    | error e => rfl
    | ok w2 => rfl

theorem seedTeams_spec (env : Env α β) (w : World α β) :
    (seedTeams env w = .ok (w.emit (.findTeams env.findTeamsOk))
      ∧ (env.findTeamsOk = false ∨ w.teamTable ≠ []))
    ∨ (env.findTeamsOk = true ∧ w.teamTable = [] ∧ seedTeams env w
        = .ok { w with teamTable := w.dwConf.Team
                       trace := w.trace ++ Event.findTeams true
                          :: w.dwConf.Team.map (fun t => Event.createTeam t true) })
    ∨ (env.findTeamsOk = true ∧ w.teamTable = [] ∧
        ∃ done t rest, w.dwConf.Team = done ++ t :: rest
        ∧ env.createTeamOk done t = false
        ∧ seedTeams env w
        = .error (.fatal,
            { w with teamTable := done
                     trace := w.trace ++ Event.findTeams true
                        :: done.map (fun t => Event.createTeam t true)
                        ++ [Event.createTeam t false,
                            Event.fatal "unable to save team in database"] })) := by
  cases hf : env.findTeamsOk with
  | false => left; simp [seedTeams, dbFind, hf]
  | true =>
    cases ht : w.teamTable with
    | cons r rs => left; simp [seedTeams, dbFind, hf, ht]
    | nil =>
      right
      rcases createTeams_spec env w.dwConf.Team (w.emit (.findTeams true))
        with h | ⟨done, t, rest, hk, hu, h⟩
      · left
        simp [World.emit, ht] at h
        simp [seedTeams, dbFind, hf, ht, h, World.emit]
      · right
        refine ⟨rfl, rfl, done, t, rest, hk, ?_, ?_⟩
        · simpa [World.emit, ht] using hu
        · simp [World.emit, ht] at h
          simp [seedTeams, dbFind, hf, ht, h, World.emit]

theorem startup_ok {env : Env α β} {w w1 : World α β} (h : startup env w = .ok w1) :
    ∃ c, env.checkConfig env.readConfig = some c ∧ env.loadLocation c.Timezone = true
      ∧ env.openOk = true
      ∧ w1 = { w with dwConf := c
                      trace := w.trace ++ [Event.readConfig, Event.checkConfig true,
                        Event.loadLocation true, Event.openDB true] } := by
  unfold startup at h
  simp only [World.emit] at h
  cases hc : env.checkConfig env.readConfig with
  | none => simp [hc] at h
  | some c =>
    cases hl : env.loadLocation c.Timezone with
    | false => simp [hc, hl] at h
    | true =>
      cases ho : env.openOk with
      | false => simp [hc, hl, ho] at h
      | true =>
        simp [hc, hl, ho] at h
        exact ⟨c, rfl, hl, rfl, h.symm⟩

theorem startup_error {env : Env α β} {w w1 : World α β} {hlt : Halt}
    (h : startup env w = .error (hlt, w1)) :
    hlt = .fatal ∧ w1.teamTable = w.teamTable ∧ w1.injectTable = w.injectTable
      ∧ w1.persistHits = w.persistHits ∧ w1.ctMutex = w.ctMutex ∧ w1.routes = w.routes
      ∧ ∃ evs msg, w1.trace = w.trace ++ evs ++ [Event.fatal msg]
          ∧ (∀ e ∈ evs, e.setup = true) ∧ (∀ e ∈ evs, e.storageFailure = false) := by
  unfold startup at h
  simp only [World.emit] at h
  cases hc : env.checkConfig env.readConfig with
  | none =>
    simp [hc] at h
    obtain ⟨rfl, rfl⟩ := h
    refine ⟨rfl, rfl, rfl, rfl, rfl, rfl, [.readConfig, .checkConfig false], "illegal config", by simp, ?_, ?_⟩
    · simp [Event.setup]
    · simp [Event.storageFailure]
  | some c =>
    cases hl : env.loadLocation c.Timezone with
    | false =>
      simp [hc, hl] at h
      obtain ⟨rfl, rfl⟩ := h
      refine ⟨rfl, rfl, rfl, rfl, rfl, rfl,
        [.readConfig, .checkConfig true, .loadLocation false], "invalid timezone", by simp, ?_, ?_⟩
      · simp [Event.setup]
      · simp [Event.storageFailure]
    | true =>
      cases ho : env.openOk with
      | false =>
        simp [hc, hl, ho] at h
        obtain ⟨rfl, rfl⟩ := h
        refine ⟨rfl, rfl, rfl, rfl, rfl, rfl,
          [.readConfig, .checkConfig true, .loadLocation true, .openDB false],
          "Failed to connect database!", by simp, ?_, ?_⟩
        · simp [Event.setup]
        · simp [Event.storageFailure]
      | true => simp [hc, hl, ho] at h

theorem beforeInjects_error {env : Env α β} {w w1 : World α β} {hlt : Halt}
    (h : beforeInjects env w = .error (hlt, w1)) :
    hlt = .fatal ∧ w1.injectTable = w.injectTable ∧ w1.ctMutex = w.ctMutex
      ∧ w1.routes = w.routes
      ∧ ∃ evs msg, w1.trace = w.trace ++ evs ++ [Event.fatal msg]
          ∧ (∀ e ∈ evs, e.setup = true)
          ∧ ((∀ e ∈ evs, e.storageFailure = false)
            ∨ ∃ pre t, evs = pre ++ [Event.createTeam t false]
                ∧ msg = "unable to save team in database"
                ∧ ∀ e ∈ pre, e.storageFailure = false) := by
  unfold beforeInjects at h
  cases hs : startup env w with
  | error e =>
    rw [hs] at h
    simp only [Except.error.injEq] at h
    subst h
    obtain ⟨h1, _, h3, _, h5, h6, evs, msg, h7, h8, h9⟩ := startup_error hs
    exact ⟨h1, h3, h5, h6, evs, msg, h7, h8, Or.inl h9⟩
  | ok w0 =>
    rw [hs] at h
    simp only at h
    obtain ⟨c, _, _, _, rfl⟩ := startup_ok hs
    clear hs
    rcases seedTeams_spec env (assignIDs (allocPersistHits
      { w with dwConf := c
               trace := w.trace ++ [Event.readConfig, Event.checkConfig true,
                 Event.loadLocation true, Event.openDB true] }))
      with ⟨h1, _⟩ | ⟨_, _, h1⟩ | ⟨_, _, done, t, rest, _, _, h1⟩
    · rw [h1] at h; cases h
    · rw [h1] at h; cases h
    · rw [h1] at h
      simp only [Except.error.injEq, Prod.mk.injEq] at h
      obtain ⟨rfl, rfl⟩ := h
      clear h1
      refine ⟨rfl, ?_, ?_, ?_, ?_⟩
      · cases hp : c.Persists <;> simp [assignIDs, allocPersistHits, World.emit, hp]
      · cases hp : c.Persists <;> simp [assignIDs, allocPersistHits, World.emit, hp]
      · cases hp : c.Persists <;> simp [assignIDs, allocPersistHits, World.emit, hp]
      · refine ⟨[Event.readConfig, Event.checkConfig true, Event.loadLocation true,
              Event.openDB true, Event.autoMigrate]
              ++ (if c.Persists then [Event.makePersistHits] else [])
              ++ (List.range c.Team.length).map (fun i => Event.assignID i (uint (i + 1)))
              ++ Event.findTeams true
                :: done.map (fun t => Event.createTeam t true)
              ++ [Event.createTeam t false], "unable to save team in database", ?_, ?_,
              Or.inr ⟨_, t, rfl, rfl, ?_⟩⟩
        · cases hp : c.Persists <;> simp [assignIDs, allocPersistHits, World.emit, hp]
        · rw [← List.all_eq_true]
          cases hp : c.Persists <;> simp [Event.setup, List.all_append]
        · apply forall_false_of_all
          cases hp : c.Persists <;> simp [Event.storageFailure, List.all_append]

theorem beforeInjects_ok {env : Env α β} {w w1 : World α β}
    (h : beforeInjects env w = .ok w1) :
    ∃ c, env.checkConfig env.readConfig = some c ∧ env.loadLocation c.Timezone = true
      ∧ env.openOk = true
      ∧ w1.dwConf = { c with Team := assignTeamIDs c.Team }
      ∧ w1.injectTable = w.injectTable
      ∧ w1.ctMutex = true
      ∧ w1.persistHits = (if c.Persists then some [] else w.persistHits)
      ∧ w1.routes = w.routes ++ registerRoutes c
      ∧ (w1.teamTable = w.teamTable ∨ (w.teamTable = [] ∧ w1.teamTable = assignTeamIDs c.Team))
      ∧ ∃ evs, w1.trace = w.trace ++ evs ++ [Event.initCtMutex]
          ∧ (∀ e ∈ evs, e.setup = true)
          ∧ (∀ e ∈ evs, e.storageFailure = false)
          ∧ (Event.makePersistHits ∈ evs ↔ c.Persists = true)
          ∧ (∀ i, i < c.Team.length → Event.assignID i (uint (i + 1)) ∈ evs) := by
  unfold beforeInjects at h
  cases hs : startup env w with
  | error e => rw [hs] at h; cases h
  | ok w0 =>
    rw [hs] at h
    simp only at h
    obtain ⟨c, hc, hl, ho, rfl⟩ := startup_ok hs
    clear hs
    refine ⟨c, hc, hl, ho, ?_⟩
    rcases seedTeams_spec env (assignIDs (allocPersistHits
      { w with dwConf := c
               trace := w.trace ++ [Event.readConfig, Event.checkConfig true,
                 Event.loadLocation true, Event.openDB true] }))
      with ⟨h1, _⟩ | ⟨_, ht, h1⟩ | ⟨_, _, done, t, rest, _, _, h1⟩
    · rw [h1] at h
      simp only [Except.ok.injEq] at h
      subst h
      clear h1
      refine ⟨?_, ?_, ?_, ?_, ?_, ?_, ?_⟩
      · cases hp : c.Persists <;> simp [setupRouter, assignIDs, allocPersistHits, World.emit, hp]
      · cases hp : c.Persists <;> simp [setupRouter, assignIDs, allocPersistHits, World.emit, hp]
      · cases hp : c.Persists <;> simp [setupRouter, assignIDs, allocPersistHits, World.emit, hp]
      · cases hp : c.Persists <;> simp [setupRouter, assignIDs, allocPersistHits, World.emit, hp]
      · cases hp : c.Persists <;>
          simp [setupRouter, assignIDs, allocPersistHits, World.emit, hp, registerRoutes]
      · left
        cases hp : c.Persists <;> simp [setupRouter, assignIDs, allocPersistHits, World.emit, hp]
      · refine ⟨[Event.readConfig, Event.checkConfig true, Event.loadLocation true,
              Event.openDB true, Event.autoMigrate]
              ++ (if c.Persists then [Event.makePersistHits] else [])
              ++ (List.range c.Team.length).map (fun i => Event.assignID i (uint (i + 1)))
              ++ [Event.findTeams env.findTeamsOk], ?_, ?_, ?_, ?_, ?_⟩
        · cases hp : c.Persists <;>
            simp [setupRouter, assignIDs, allocPersistHits, World.emit, hp]
        · rw [← List.all_eq_true]
          cases hp : c.Persists <;> simp [Event.setup, List.all_append]
        · apply forall_false_of_all
          cases hp : c.Persists <;> simp [Event.storageFailure, List.all_append]
        · cases hp : c.Persists <;> simp
        · intro i hi
          have hmem : Event.assignID i (uint (i + 1)) ∈
              (List.range c.Team.length).map
                (fun i => (Event.assignID i (uint (i + 1)) : Event α β)) :=
            List.mem_map.mpr ⟨i, List.mem_range.mpr hi, rfl⟩
          simp only [List.mem_append, List.mem_cons]
          tauto
    · rw [h1] at h
      simp only [Except.ok.injEq] at h
      subst h
      clear h1
      have ht0 : w.teamTable = [] := by
        cases hp : c.Persists <;>
          simpa [assignIDs, allocPersistHits, World.emit, hp] using ht
      refine ⟨?_, ?_, ?_, ?_, ?_, ?_, ?_⟩
      · cases hp : c.Persists <;> simp [setupRouter, assignIDs, allocPersistHits, World.emit, hp]
      · cases hp : c.Persists <;> simp [setupRouter, assignIDs, allocPersistHits, World.emit, hp]
      · cases hp : c.Persists <;> simp [setupRouter, assignIDs, allocPersistHits, World.emit, hp]
      · cases hp : c.Persists <;> simp [setupRouter, assignIDs, allocPersistHits, World.emit, hp]
      · cases hp : c.Persists <;>
          simp [setupRouter, assignIDs, allocPersistHits, World.emit, hp, registerRoutes]
      · right
        refine ⟨ht0, ?_⟩
        cases hp : c.Persists <;> simp [setupRouter, assignIDs, allocPersistHits, World.emit, hp]
      · refine ⟨[Event.readConfig, Event.checkConfig true, Event.loadLocation true,
              Event.openDB true, Event.autoMigrate]
              ++ (if c.Persists then [Event.makePersistHits] else [])
              ++ (List.range c.Team.length).map (fun i => Event.assignID i (uint (i + 1)))
              ++ Event.findTeams true
                :: (assignTeamIDs c.Team).map (fun t => Event.createTeam t true),
              ?_, ?_, ?_, ?_, ?_⟩
        · cases hp : c.Persists <;>
            simp [setupRouter, assignIDs, allocPersistHits, World.emit, hp]
        · rw [← List.all_eq_true]
          cases hp : c.Persists <;> simp [Event.setup, List.all_append]
        · apply forall_false_of_all
          cases hp : c.Persists <;> simp [Event.storageFailure, List.all_append]
        · cases hp : c.Persists <;> simp
        · intro i hi
          have hmem : Event.assignID i (uint (i + 1)) ∈
              (List.range c.Team.length).map
                (fun i => (Event.assignID i (uint (i + 1)) : Event α β)) :=
            List.mem_map.mpr ⟨i, List.mem_range.mpr hi, rfl⟩
          simp only [List.mem_append, List.mem_cons]
          tauto
    · rw [h1] at h; cases h

/-! ## The inject seeding step -/

theorem seedPasswordInject_spec (env : Env α β) (w : World α β) :
    (w.dwConf.NoPasswords = true ∧ seedPasswordInject env w = .ok w)
    ∨ (w.dwConf.NoPasswords = false ∧ seedPasswordInject env w
        = .ok { w with injectTable := w.injectTable ++ [pwChangeInject env]
                       trace := w.trace ++ [Event.createInject (pwChangeInject env) true] })
    ∨ (w.dwConf.NoPasswords = false ∧ seedPasswordInject env w
        = .error (.returned,
            { w with trace := w.trace ++ [Event.createInject (pwChangeInject env) false,
                                          Event.errorPrint] })) := by
  cases hn : w.dwConf.NoPasswords with
  | true => left; simp [seedPasswordInject, hn]
  | false =>
    right
    cases hok : env.createInjectOk w.injectTable (pwChangeInject env) with
    | true => left; simp [seedPasswordInject, hn, createInject, dbCreate, hok, World.emit]
    | false => right; simp [seedPasswordInject, hn, createInject, dbCreate, hok, World.emit]

theorem seedConfigInjects_spec (env : Env α β) (w : World α β) :
    (env.injectsConf = .unreadable ∧ seedConfigInjects env w
        = .ok { w with trace := w.trace ++ [Event.readFile false, Event.debugPrint] })
    ∨ (env.injectsConf = .malformed ∧ seedConfigInjects env w
        = .error (.fatal,
            { w with trace := w.trace ++ [Event.readFile true, Event.decode false,
                                          Event.fatal "toml decode"] }))
    ∨ (∃ l, env.injectsConf = .decoded l ∧ seedConfigInjects env w
        = .ok { w with injectTable := w.injectTable ++ l.Inject
                       trace := w.trace ++ Event.readFile true :: Event.decode true
                          :: l.Inject.map (fun x => Event.createInject x true) })
    ∨ (∃ l done x rest, env.injectsConf = .decoded l ∧ l.Inject = done ++ x :: rest
        ∧ seedConfigInjects env w
        = .error (.returned,
            { w with injectTable := w.injectTable ++ done
                     trace := w.trace ++ Event.readFile true :: Event.decode true
                        :: done.map (fun x => Event.createInject x true)
                        ++ [Event.createInject x false, Event.errorPrint] })) := by
  cases hc : env.injectsConf with
  | unreadable => left; simp [seedConfigInjects, hc, World.emit]
  | malformed => right; left; simp [seedConfigInjects, hc, World.emit]
  | decoded l =>
    right; right
    rcases createInjects_spec env l.Inject
        ((w.emit (.readFile true)).emit (.decode true)) with h | ⟨done, x, rest, hk, _, h⟩
    · left
      refine ⟨l, rfl, ?_⟩
      simp [World.emit] at h
      simp [seedConfigInjects, hc, World.emit, h]
    · right
      refine ⟨l, done, x, rest, rfl, hk, ?_⟩
      simp [World.emit] at h
      simp [seedConfigInjects, hc, World.emit, h]

theorem seedInjects_spec (env : Env α β) (w : World α β) :
    ∃ evs w1,
      ((seedInjects env w = .ok w1 ∧ ∀ e ∈ evs, e.storageFailure = false)
        ∨ (seedInjects env w = .error (.fatal, w1) ∧ ∀ e ∈ evs, e.storageFailure = false)
        ∨ (seedInjects env w = .error (.returned, w1)
            ∧ ∃ pre e, evs = pre ++ [e, Event.errorPrint] ∧ e.storageFailure = true
                ∧ ∀ e1 ∈ pre, e1.storageFailure = false))
      ∧ w1.dwConf = w.dwConf ∧ w1.teamTable = w.teamTable
      ∧ w1.persistHits = w.persistHits ∧ w1.ctMutex = w.ctMutex ∧ w1.routes = w.routes
      ∧ w1.trace = w.trace ++ evs ∧ (∀ e ∈ evs, e.seeding = true) := by
  cases hf : env.findInjectsOk with
  | false =>
    have hseed : seedInjects env w = .error (.returned,
        { w with trace := w.trace ++ [.findInjects false, .errorPrint] }) := by
      simp [seedInjects, dbFind, hf, World.emit]
    exact ⟨[.findInjects false, .errorPrint], _,
      Or.inr (Or.inr ⟨hseed, [], _, rfl, rfl, by simp⟩), rfl, rfl, rfl, rfl, rfl, rfl,
      by simp [Event.seeding]⟩
  | true =>
    cases ht : w.injectTable with
    | cons r rs =>
      have hseed : seedInjects env w = .ok
          { w with trace := w.trace ++ [.findInjects true, .debugPrint] } := by
        simp [seedInjects, dbFind, hf, ht, World.emit]
      exact ⟨[.findInjects true, .debugPrint], _,
        Or.inl ⟨hseed, by simp [Event.storageFailure]⟩, rfl, rfl, rfl, rfl, rfl, rfl,
        by simp [Event.seeding]⟩
    | nil =>
      have hseed : seedInjects env w =
          match seedPasswordInject env (w.emit (.findInjects true)) with
          | .ok w => seedConfigInjects env w
          | .error e => .error e := by
        simp [seedInjects, dbFind, hf, ht]
      rcases seedPasswordInject_spec env (w.emit (.findInjects true))
        with ⟨_, h1⟩ | ⟨_, h1⟩ | ⟨_, h1⟩
      · rw [h1] at hseed
        simp only at hseed
        rcases seedConfigInjects_spec env (w.emit (.findInjects true))
          with ⟨_, h2⟩ | ⟨_, h2⟩ | ⟨l, _, h2⟩ | ⟨l, done, x, rest, _, _, h2⟩
        · rw [h2] at hseed
          refine ⟨[.findInjects true, .readFile false, .debugPrint], _,
            Or.inl ⟨hseed, ?_⟩, rfl, rfl, rfl, rfl, rfl, ?_, ?_⟩
          · simp [Event.storageFailure]
          · simp [World.emit]
          · rw [← List.all_eq_true]; simp [Event.seeding, List.all_append]
        · rw [h2] at hseed
          refine ⟨[.findInjects true, .readFile true, .decode false, .fatal "toml decode"], _,
            Or.inr (Or.inl ⟨hseed, ?_⟩), rfl, rfl, rfl, rfl, rfl, ?_, ?_⟩
          · simp [Event.storageFailure]
          · simp [World.emit]
          · rw [← List.all_eq_true]; simp [Event.seeding, List.all_append]
        · rw [h2] at hseed
          refine ⟨.findInjects true :: .readFile true :: .decode true
              :: l.Inject.map (fun x => Event.createInject x true), _,
            Or.inl ⟨hseed, ?_⟩, rfl, rfl, rfl, rfl, rfl, ?_, ?_⟩
          · simp [Event.storageFailure]
          · simp [World.emit]
          · rw [← List.all_eq_true]; simp [Event.seeding, List.all_append]
        · rw [h2] at hseed
          refine ⟨.findInjects true :: .readFile true :: .decode true
              :: done.map (fun x => Event.createInject x true)
              ++ [.createInject x false, .errorPrint], _,
            Or.inr (Or.inr ⟨hseed, ?_⟩), rfl, rfl, rfl, rfl, rfl, ?_, ?_⟩
          · exact ⟨.findInjects true :: .readFile true :: .decode true
              :: done.map (fun x => Event.createInject x true), .createInject x false, by simp, rfl,
            by apply forall_false_of_all; simp [Event.storageFailure, List.all_append]⟩
          · simp [World.emit]
          · rw [← List.all_eq_true]; simp [Event.seeding, List.all_append]
      · rw [h1] at hseed
        simp only at hseed
        rcases seedConfigInjects_spec env
            { w.emit (.findInjects true) with
              injectTable := (w.emit (.findInjects true)).injectTable ++ [pwChangeInject env]
              trace := (w.emit (.findInjects true)).trace
                ++ [Event.createInject (pwChangeInject env) true] }
          with ⟨_, h2⟩ | ⟨_, h2⟩ | ⟨l, _, h2⟩ | ⟨l, done, x, rest, _, _, h2⟩
        · rw [h2] at hseed
          refine ⟨[.findInjects true, .createInject (pwChangeInject env) true, .readFile false, .debugPrint], _,
            Or.inl ⟨hseed, ?_⟩, rfl, rfl, rfl, rfl, rfl, ?_, ?_⟩
          · simp [Event.storageFailure]
          · simp [World.emit]
          · rw [← List.all_eq_true]; simp [Event.seeding, List.all_append]
        · rw [h2] at hseed
          refine ⟨[.findInjects true, .createInject (pwChangeInject env) true, .readFile true, .decode false, .fatal "toml decode"], _,
            Or.inr (Or.inl ⟨hseed, ?_⟩), rfl, rfl, rfl, rfl, rfl, ?_, ?_⟩
          · simp [Event.storageFailure]
          · simp [World.emit]
          · rw [← List.all_eq_true]; simp [Event.seeding, List.all_append]
        · rw [h2] at hseed
          refine ⟨.findInjects true :: .createInject (pwChangeInject env) true :: .readFile true :: .decode true
              :: l.Inject.map (fun x => Event.createInject x true), _,
            Or.inl ⟨hseed, ?_⟩, rfl, rfl, rfl, rfl, rfl, ?_, ?_⟩
          · simp [Event.storageFailure]
          · simp [World.emit]
          · rw [← List.all_eq_true]; simp [Event.seeding, List.all_append]
        · rw [h2] at hseed
          refine ⟨.findInjects true :: .createInject (pwChangeInject env) true :: .readFile true :: .decode true
              :: done.map (fun x => Event.createInject x true)
              ++ [.createInject x false, .errorPrint], _,
            Or.inr (Or.inr ⟨hseed, ?_⟩), rfl, rfl, rfl, rfl, rfl, ?_, ?_⟩
          · exact ⟨.findInjects true :: .createInject (pwChangeInject env) true :: .readFile true :: .decode true
              :: done.map (fun x => Event.createInject x true), .createInject x false, by simp, rfl,
            by apply forall_false_of_all; simp [Event.storageFailure, List.all_append]⟩
          · simp [World.emit]
          · rw [← List.all_eq_true]; simp [Event.seeding, List.all_append]
      · rw [h1] at hseed
        simp only at hseed
        refine ⟨[.findInjects true, .createInject (pwChangeInject env) false, .errorPrint], _,
          Or.inr (Or.inr ⟨hseed, ?_⟩), rfl, rfl, rfl, rfl, rfl, ?_, ?_⟩
        · exact ⟨[.findInjects true], .createInject (pwChangeInject env) false, by simp, rfl,
            by simp [Event.storageFailure]⟩
        · simp [World.emit]
        · rw [← List.all_eq_true]; simp [Event.seeding, List.all_append]

/-! ## Rows created along a trace -/

theorem createdTeams_append (l1 l2 : List (Event α β)) :
    createdTeams (l1 ++ l2) = createdTeams l1 ++ createdTeams l2 := by
  induction l1 with
  | nil => rfl
  | cons e l ih => cases e <;> simp [createdTeams, ih]

theorem createdTeams_map (ts : List (TeamData α)) (ok : Bool) :
    createdTeams (ts.map (fun t => (Event.createTeam t ok : Event α β))) = ts := by
  induction ts with
  | nil => rfl
  | cons t ts ih => simp [createdTeams, ih]

theorem createdInjects_append (l1 l2 : List (Event α β)) :
    createdInjects (l1 ++ l2) = createdInjects l1 ++ createdInjects l2 := by
  induction l1 with
  | nil => rfl
  | cons e l ih => cases e <;> simp [createdInjects, ih]

theorem createdInjects_map (xs : List (Inject β)) (ok : Bool) :
    createdInjects (xs.map (fun x => (Event.createInject x ok : Event α β))) = xs := by
  induction xs with
  | nil => rfl
  | cons x xs ih => simp [createdInjects, ih]

theorem createdInjects_setup (l : List (Event α β)) (h : ∀ e ∈ l, e.setup = true) :
    createdInjects l = [] := by
  induction l with
  | nil => rfl
  | cons e l ih =>
    have he := h e (List.mem_cons_self _ _)
    have hl := ih (fun e he => h e (List.mem_cons_of_mem _ he))
    cases e <;> simp_all [createdInjects, Event.setup]

theorem seedInjects_nonempty (env : Env α β) (w : World α β) (hne : w.injectTable ≠ []) :
    (env.findInjectsOk = true ∧ seedInjects env w
        = .ok { w with trace := w.trace ++ [Event.findInjects true, Event.debugPrint] })
    ∨ (env.findInjectsOk = false ∧ seedInjects env w
        = .error (.returned,
            { w with trace := w.trace ++ [Event.findInjects false, Event.errorPrint] })) := by
  cases hf : env.findInjectsOk with
  | false => right; simp [seedInjects, dbFind, hf, World.emit]
  | true =>
    left
    cases ht : w.injectTable with
    | nil => exact absurd ht hne
    | cons r rs => simp [seedInjects, dbFind, hf, ht, World.emit]

theorem seedInjects_first (env : Env α β) (w : World α β) (hempty : w.injectTable = [])
    (hfind : env.findInjectsOk = true) (hcreate : ∀ tbl x, env.createInjectOk tbl x = true) :
    ∃ w1 evs,
      (seedInjects env w = .ok w1
        ∨ (seedInjects env w = .error (.fatal, w1) ∧ env.injectsConf = .malformed))
      ∧ w1.dwConf = w.dwConf
      ∧ w1.injectTable
          = (if w.dwConf.NoPasswords then [] else [pwChangeInject env]) ++ env.injectsConf.injects
      ∧ w1.trace = w.trace ++ Event.findInjects true :: evs
      ∧ createdInjects evs
          = (if w.dwConf.NoPasswords then [] else [pwChangeInject env]) ++ env.injectsConf.injects
      ∧ (∀ e ∈ evs, e.seeding = true) := by
  have hseed : seedInjects env w =
      match seedPasswordInject env (w.emit (.findInjects true)) with
      | .ok w => seedConfigInjects env w
      | .error e => .error e := by
    simp [seedInjects, dbFind, hfind, hempty]
  cases hn : w.dwConf.NoPasswords with
  | true =>
    have h1 : seedPasswordInject env (w.emit (.findInjects true))
        = .ok (w.emit (.findInjects true)) := by
      simp [seedPasswordInject, World.emit, hn]
    rw [h1] at hseed
    simp only at hseed
    cases hc : env.injectsConf with
    | unreadable =>
      have hres : seedInjects env w = .ok
          { w with trace := w.trace ++ Event.findInjects true
              :: [Event.readFile false, Event.debugPrint] } := by
        rw [hseed]; simp [seedConfigInjects, hc, World.emit]
      refine ⟨_, _, Or.inl hres, rfl, ?_, rfl, ?_, ?_⟩
      · simp [hempty, ConfFile.injects]
      · simp [ConfFile.injects, createdInjects]
      · simp [Event.seeding]
    | malformed =>
      have hres : seedInjects env w = .error (.fatal,
          { w with trace := w.trace ++ Event.findInjects true
              :: [Event.readFile true, Event.decode false, Event.fatal "toml decode"] }) := by
        rw [hseed]; simp [seedConfigInjects, hc, World.emit]
      refine ⟨_, _, Or.inr ⟨hres, rfl⟩, rfl, ?_, rfl, ?_, ?_⟩
      · simp [hempty, ConfFile.injects]
      · simp [ConfFile.injects, createdInjects]
      · simp [Event.seeding]
    | decoded l =>
      have hres : seedInjects env w = .ok
          { w with injectTable := l.Inject
                   trace := w.trace ++ Event.findInjects true
              :: (Event.readFile true :: Event.decode true
                :: l.Inject.map (fun x => Event.createInject x true)) } := by
        rw [hseed]
        simp [seedConfigInjects, hc, World.emit, createInjects_ok env hcreate, hempty]
      refine ⟨_, _, Or.inl hres, rfl, ?_, rfl, ?_, ?_⟩
      · simp [ConfFile.injects]
      · simp [ConfFile.injects, createdInjects, createdInjects_map]
      · rw [← List.all_eq_true]; simp [Event.seeding]
  | false =>
    have h1 : seedPasswordInject env (w.emit (.findInjects true))
        = .ok { w with injectTable := [pwChangeInject env]
                       trace := w.trace ++ [Event.findInjects true,
                          Event.createInject (pwChangeInject env) true] } := by
      simp [seedPasswordInject, World.emit, hn, createInject, dbCreate, hcreate, hempty]
    rw [h1] at hseed
    simp only at hseed
    cases hc : env.injectsConf with
    | unreadable =>
      have hres : seedInjects env w = .ok
          { w with injectTable := [pwChangeInject env]
                   trace := w.trace ++ Event.findInjects true
              :: [Event.createInject (pwChangeInject env) true, Event.readFile false,
                  Event.debugPrint] } := by
        rw [hseed]; simp [seedConfigInjects, hc, World.emit]
      refine ⟨_, _, Or.inl hres, rfl, ?_, rfl, ?_, ?_⟩
      · simp [ConfFile.injects]
      · simp [ConfFile.injects, createdInjects]
      · simp [Event.seeding]
    | malformed =>
      have hres : seedInjects env w = .error (.fatal,
          { w with injectTable := [pwChangeInject env]
                   trace := w.trace ++ Event.findInjects true
              :: [Event.createInject (pwChangeInject env) true, Event.readFile true,
                  Event.decode false, Event.fatal "toml decode"] }) := by
        rw [hseed]; simp [seedConfigInjects, hc, World.emit]
      refine ⟨_, _, Or.inr ⟨hres, rfl⟩, rfl, ?_, rfl, ?_, ?_⟩
      · simp [ConfFile.injects]
      · simp [ConfFile.injects, createdInjects]
      · simp [Event.seeding]
    | decoded l =>
      have hres : seedInjects env w = .ok
          { w with injectTable := pwChangeInject env :: l.Inject
                   trace := w.trace ++ Event.findInjects true
              :: (Event.createInject (pwChangeInject env) true
                :: Event.readFile true :: Event.decode true
                :: l.Inject.map (fun x => Event.createInject x true)) } := by
        rw [hseed]
        simp [seedConfigInjects, hc, World.emit, createInjects_ok env hcreate]
      refine ⟨_, _, Or.inl hres, rfl, ?_, rfl, ?_, ?_⟩
      · simp [ConfFile.injects]
      · simp [ConfFile.injects, createdInjects, createdInjects_map]
      · rw [← List.all_eq_true]; simp [Event.seeding]

/-! ## The two ways through `main` -/

theorem main_of_before_error {env : Env α β} {w : World α β} {e : Halt × World α β}
    (hb : beforeInjects env w = .error e) : main env w = .error e := by
  rw [main_eq, hb]

theorem main_of_before_ok {env : Env α β} {w w1 : World α β}
    (hb : beforeInjects env w = .ok w1) :
    ∃ evs w2,
      ((main env w = .ok (serve w2) ∧ ∀ e ∈ evs, e.storageFailure = false)
        ∨ (main env w = .error (.fatal, w2) ∧ ∀ e ∈ evs, e.storageFailure = false)
        ∨ (main env w = .error (.returned, w2)
            ∧ ∃ pre e, evs = pre ++ [e, Event.errorPrint] ∧ e.storageFailure = true
                ∧ ∀ e1 ∈ pre, e1.storageFailure = false))
      ∧ w2.dwConf = w1.dwConf ∧ w2.teamTable = w1.teamTable
      ∧ w2.persistHits = w1.persistHits ∧ w2.ctMutex = w1.ctMutex ∧ w2.routes = w1.routes
      ∧ w2.trace = w1.trace ++ evs ∧ (∀ e ∈ evs, e.seeding = true) := by
  obtain ⟨evs, w2, hres, hrest⟩ := seedInjects_spec env w1
  refine ⟨evs, w2, ?_, hrest⟩
  rw [main_eq, hb]
  simp only
  rcases hres with ⟨h, hf⟩ | ⟨h, hf⟩ | ⟨h, hf⟩
  · exact Or.inl ⟨by rw [h], hf⟩
  · exact Or.inr (Or.inl ⟨by rw [h], hf⟩)
  · exact Or.inr (Or.inr ⟨by rw [h], hf⟩)

theorem registerRoutes_scorePersist (c : config α) :
    (∃ rt ∈ registerRoutes c, rt.handler = Handler.scorePersist) ↔ c.Persists = true := by
  cases hp : c.Persists <;> cases he : c.EasyPCR <;> simp [registerRoutes, hp, he]

/-! ## The claims -/

theorem assignTeamIDs_map_cols (teams : List (TeamData α)) :
    (assignTeamIDs teams).map (fun t => t.cols) = teams.map (fun t => t.cols) := by
  apply List.ext_getElem?
  intro i
  simp only [List.getElem?_map, assignTeamIDs_getElem?]
  cases teams[i]? <;> simp

/-- C1: after the assignment loop of `main` the team at 0-based position `i` of a
configured list of length `n` has ID `i + 1`, whatever IDs the teams carried
before; hence the IDs are pairwise distinct, non-zero and exactly `1, ..., n`. -/
theorem team_ids_one_based (teams : List (TeamData α)) (hlen : teams.length ≤ maxInt) :
    (assignTeamIDs teams).length = teams.length
    ∧ (∀ i, i < teams.length →
        ((assignTeamIDs teams)[i]?).map (fun t => t.ID) = some (i + 1))
    ∧ ((assignTeamIDs teams).map (fun t => t.ID)).Nodup
    ∧ (∀ t ∈ assignTeamIDs teams, t.ID ≠ 0)
    ∧ (∀ k, k ∈ (assignTeamIDs teams).map (fun t => t.ID) ↔ 1 ≤ k ∧ k ≤ teams.length) := by
  have hmap := assignTeamIDs_map_ID teams hlen
  refine ⟨assignTeamIDs_length teams, ?_, ?_, ?_, ?_⟩
  · exact assignTeamIDs_ID_at teams hlen
  · rw [hmap]
    exact (List.nodup_range _).map (fun a b h => by simpa using h)
  · intro t ht
    have : t.ID ∈ (assignTeamIDs teams).map (fun t => t.ID) := List.mem_map.mpr ⟨t, ht, rfl⟩
    rw [hmap] at this
    obtain ⟨i, _, hi⟩ := List.mem_map.mp this
    omega
  · intro k
    rw [hmap]
    simp only [List.mem_map, List.mem_range]
    constructor
    · rintro ⟨i, hi, rfl⟩; omega
    · rintro ⟨h1, h2⟩; exact ⟨k - 1, by omega, by omega⟩

theorem team_ids_one_based_witness :
    sampleTeams.length ≤ maxInt
    ∧ (assignTeamIDs sampleTeams).length = sampleTeams.length
    ∧ (∀ i, i < sampleTeams.length →
        ((assignTeamIDs sampleTeams)[i]?).map (fun t => t.ID) = some (i + 1))
    ∧ ((assignTeamIDs sampleTeams).map (fun t => t.ID)).Nodup
    ∧ (∀ t ∈ assignTeamIDs sampleTeams, t.ID ≠ 0)
    ∧ (∀ k, k ∈ (assignTeamIDs sampleTeams).map (fun t => t.ID)
        ↔ 1 ≤ k ∧ k ≤ sampleTeams.length) :=
  ⟨by decide, team_ids_one_based sampleTeams (by decide)⟩

/-- C7: the default base delay is 60 and the default jitter is 30, so a sleep of
`defaultDelay + r` with `0 ≤ r ≤ defaultJitter` lies between 60 and 90 inclusive. -/
theorem default_sleep_bounds (r : Nat) (hr : r ≤ defaultJitter) :
    defaultDelay = 60 ∧ defaultJitter = 30
    ∧ 60 ≤ defaultDelay + r ∧ defaultDelay + r ≤ 90 := by
  unfold defaultJitter at hr
  unfold defaultDelay defaultJitter
  omega

theorem default_sleep_bounds_witness :
    17 ≤ defaultJitter
    ∧ defaultDelay = 60 ∧ defaultJitter = 30
    ∧ 60 ≤ defaultDelay + 17 ∧ defaultDelay + 17 ≤ 90 :=
  ⟨by decide, default_sleep_bounds 17 (by decide)⟩

/-- C2: when the persisted `TeamData` table already holds a record, the seeding step
of `main` creates, modifies and deletes no record: the step only runs the query
and the table afterwards equals the table before. In particular a second seeding
step after a successful first seeding of a non-empty team list changes nothing. -/
theorem teamdata_seeding_never_overwrites :
    (∀ (env : Env α β) (w : World α β), w.teamTable ≠ [] →
        seedTeams env w = .ok (w.emit (.findTeams env.findTeamsOk))
        ∧ (finalWorld (seedTeams env w)).teamTable = w.teamTable
        ∧ createdTeams (finalWorld (seedTeams env w)).trace = createdTeams w.trace)
    ∧ (∀ (env1 env2 : Env α β) (w0 w1 : World α β),
        w0.teamTable = [] → w0.dwConf.Team ≠ [] → env1.findTeamsOk = true →
        seedTeams env1 w0 = .ok w1 →
        w1.teamTable = w0.dwConf.Team
        ∧ seedTeams env2 w1 = .ok (w1.emit (.findTeams env2.findTeamsOk))
        ∧ (finalWorld (seedTeams env2 w1)).teamTable = w1.teamTable) := by
  have key : ∀ (env : Env α β) (w : World α β), w.teamTable ≠ [] →
      seedTeams env w = .ok (w.emit (.findTeams env.findTeamsOk)) := by
    intro env w hne
    rcases seedTeams_spec env w with ⟨h, _⟩ | ⟨_, ht, _⟩ | ⟨_, ht, _⟩
    · exact h
    · exact absurd ht hne
    · exact absurd ht hne
  constructor
  · intro env w hne
    rw [key env w hne]
    refine ⟨rfl, rfl, ?_⟩
    simp [finalWorld, World.emit, createdTeams_append, createdTeams]
  · intro env1 env2 w0 w1 hempty hteams hfind hfirst
    have htable : w1.teamTable = w0.dwConf.Team := by
      rcases seedTeams_spec env1 w0 with ⟨_, h | h⟩ | ⟨_, _, h⟩ | ⟨_, _, _, _, _, _, _, h⟩
      · rw [hfind] at h; cases h
      · exact absurd hempty h
      · rw [h] at hfirst
        simp only [Except.ok.injEq] at hfirst
        rw [← hfirst]
      · rw [h] at hfirst; cases hfirst
    have hne : w1.teamTable ≠ [] := by rw [htable]; exact hteams
    rw [key env2 w1 hne]
    exact ⟨htable, rfl, rfl⟩

theorem teamdata_seeding_never_overwrites_witness :
    ({ firstBoot with teamTable := assignTeamIDs sampleTeams } : World String Unit).teamTable ≠ []
    ∧ seedTeams sampleEnv { firstBoot with teamTable := assignTeamIDs sampleTeams }
        = .ok (World.emit { firstBoot with teamTable := assignTeamIDs sampleTeams }
            (.findTeams sampleEnv.findTeamsOk))
    ∧ (finalWorld (seedTeams sampleEnv
          { firstBoot with teamTable := assignTeamIDs sampleTeams })).teamTable
        = assignTeamIDs sampleTeams
    ∧ (finalWorld (seedTeams teamCreateFails
          (finalWorld (seedTeams sampleEnv
            (assignIDs { firstBoot with dwConf := sampleConf }))))).teamTable
        = (finalWorld (seedTeams sampleEnv
            (assignIDs { firstBoot with dwConf := sampleConf }))).teamTable :=
  ⟨by decide,
    (teamdata_seeding_never_overwrites.1 sampleEnv
      { firstBoot with teamTable := assignTeamIDs sampleTeams } (by decide)).1,
    (teamdata_seeding_never_overwrites.1 sampleEnv
      { firstBoot with teamTable := assignTeamIDs sampleTeams } (by decide)).2.1,
    (teamdata_seeding_never_overwrites.2 sampleEnv teamCreateFails
      (assignIDs { firstBoot with dwConf := sampleConf })
      (finalWorld (seedTeams sampleEnv (assignIDs { firstBoot with dwConf := sampleConf })))
      rfl (by decide) rfl rfl).2.2⟩

/-- C3: when the `TeamData` query succeeds and returns no record and every create
succeeds, the seeding step of `main`, run after the ID assignment, persists exactly
one record per configured team, in file order, the record of the team at 0-based
position `i` carrying ID `i + 1`; no other `TeamData` record is created. -/
theorem first_boot_teamdata_seeding (env : Env α β) (w : World α β)
    (hfind : env.findTeamsOk = true) (hempty : w.teamTable = [])
    (hcreate : ∀ tbl t, env.createTeamOk tbl t = true)
    (hlen : w.dwConf.Team.length ≤ maxInt) :
    ∃ w1, seedTeams env (assignIDs w) = .ok w1
      ∧ w1.teamTable = assignTeamIDs w.dwConf.Team
      ∧ w1.teamTable.length = w.dwConf.Team.length
      ∧ w1.teamTable.map (fun t => t.cols) = w.dwConf.Team.map (fun t => t.cols)
      ∧ (∀ i, i < w.dwConf.Team.length →
          (w1.teamTable[i]?).map (fun t => t.ID) = some (i + 1))
      ∧ w1.trace = (assignIDs w).trace ++ Event.findTeams true
          :: (assignTeamIDs w.dwConf.Team).map (fun t => Event.createTeam t true)
      ∧ createdTeams w1.trace = createdTeams w.trace ++ assignTeamIDs w.dwConf.Team := by
  have hrun : seedTeams env (assignIDs w) = .ok
      { assignIDs w with
        teamTable := assignTeamIDs w.dwConf.Team
        trace := (assignIDs w).trace ++ Event.findTeams true
          :: (assignTeamIDs w.dwConf.Team).map (fun t => Event.createTeam t true) } := by
    have hc := createTeams_ok env hcreate (assignTeamIDs w.dwConf.Team)
      ((assignIDs w).emit (.findTeams true))
    simp [World.emit, assignIDs, hempty] at hc
    simp [seedTeams, dbFind, hfind, assignIDs, hempty, World.emit, hc]
  refine ⟨_, hrun, rfl, assignTeamIDs_length _, assignTeamIDs_map_cols _,
    assignTeamIDs_ID_at _ hlen, rfl, ?_⟩
  simp only [assignIDs, createdTeams_append]
  have hassign : createdTeams ((List.range w.dwConf.Team.length).map
      (fun i => (Event.assignID i (uint (i + 1)) : Event α β))) = [] := by
    induction (List.range w.dwConf.Team.length) with
    | nil => rfl
    | cons i l ih => simpa [createdTeams] using ih
  rw [hassign]
  simp [createdTeams, createdTeams_map]

theorem first_boot_teamdata_seeding_witness :
    sampleEnv.findTeamsOk = true
    ∧ ({ firstBoot with dwConf := sampleConf } : World String Unit).teamTable = []
    ∧ (∀ tbl t, sampleEnv.createTeamOk tbl t = true)
    ∧ sampleTeams.length ≤ maxInt
    ∧ ∃ w1, seedTeams sampleEnv (assignIDs { firstBoot with dwConf := sampleConf }) = .ok w1
      ∧ w1.teamTable = assignTeamIDs sampleTeams
      ∧ w1.teamTable.length = sampleTeams.length
      ∧ w1.teamTable.map (fun t => t.cols) = sampleTeams.map (fun t => t.cols)
      ∧ (∀ i, i < sampleTeams.length →
          (w1.teamTable[i]?).map (fun t => t.ID) = some (i + 1))
      ∧ w1.trace = (assignIDs { firstBoot with dwConf := sampleConf }).trace
          ++ Event.findTeams true
          :: (assignTeamIDs sampleTeams).map (fun t => Event.createTeam t true)
      ∧ createdTeams w1.trace
          = createdTeams ({ firstBoot with dwConf := sampleConf } : World String Unit).trace
            ++ assignTeamIDs sampleTeams :=
  ⟨rfl, rfl, fun _ _ => rfl, by decide,
    first_boot_teamdata_seeding sampleEnv { firstBoot with dwConf := sampleConf }
      rfl rfl (fun _ _ => rfl) (by decide)⟩

/-- C5: whenever `checkConfig` returns an error for the loaded configuration, or the
configured timezone cannot be loaded, `main` ends by `log.Fatal` before the
database is opened, before any `TeamData` or `Inject` record is created, before
any team ID is assigned and before the scheduler or the server is started. -/
theorem config_error_is_fatal (env : Env α β)
    (teamTable : List (TeamData α)) (injectTable : List (Inject β))
    (persistHits : Option (List (Nat × List (String × List Nat))))
    (hbad : env.checkConfig env.readConfig = none
      ∨ ∃ c, env.checkConfig env.readConfig = some c ∧ env.loadLocation c.Timezone = false) :
    ∃ w1 msg, main env (World.boot teamTable injectTable persistHits) = .error (.fatal, w1)
      ∧ (w1.trace = [Event.readConfig, Event.checkConfig false, Event.fatal msg]
        ∨ w1.trace = [Event.readConfig, Event.checkConfig true, Event.loadLocation false,
            Event.fatal msg])
      ∧ (∀ ok, Event.openDB ok ∉ w1.trace)
      ∧ (∀ t ok, Event.createTeam t ok ∉ w1.trace)
      ∧ (∀ x ok, Event.createInject x ok ∉ w1.trace)
      ∧ (∀ i id, Event.assignID i id ∉ w1.trace)
      ∧ Event.goScore ∉ w1.trace ∧ Event.run ∉ w1.trace
      ∧ w1.teamTable = teamTable ∧ w1.injectTable = injectTable
      ∧ (w1.dwConf = env.readConfig ∨ env.checkConfig env.readConfig = some w1.dwConf)
      ∧ w1.ctMutex = false ∧ w1.routes = [] := by
  rcases hbad with hc | ⟨c, hc, hl⟩
  · refine ⟨{ World.boot teamTable injectTable persistHits with
        dwConf := env.readConfig
        trace := [Event.readConfig, Event.checkConfig false, Event.fatal "illegal config"] },
      "illegal config", ?_, Or.inl rfl, ?_⟩
    · simp [main, startup, hc, World.emit, World.boot]
    · simp [World.boot]
  · refine ⟨{ World.boot teamTable injectTable persistHits with
        dwConf := c
        trace := [Event.readConfig, Event.checkConfig true, Event.loadLocation false,
          Event.fatal "invalid timezone"] },
      "invalid timezone", ?_, Or.inr rfl, ?_⟩
    · simp [main, startup, hc, hl, World.emit, World.boot]
    · simp [World.boot, hc]

theorem config_error_is_fatal_witness :
    (badConfig.checkConfig badConfig.readConfig = none
      ∨ ∃ c, badConfig.checkConfig badConfig.readConfig = some c
          ∧ badConfig.loadLocation c.Timezone = false)
    ∧ ∃ w1 msg, main badConfig (World.boot [] [] none) = .error (.fatal, w1)
      ∧ (w1.trace = [Event.readConfig, Event.checkConfig false, Event.fatal msg]
        ∨ w1.trace = [Event.readConfig, Event.checkConfig true, Event.loadLocation false,
            Event.fatal msg])
      ∧ (∀ ok, Event.openDB ok ∉ w1.trace)
      ∧ (∀ t ok, Event.createTeam t ok ∉ w1.trace)
      ∧ (∀ x ok, Event.createInject x ok ∉ w1.trace)
      ∧ (∀ i id, Event.assignID i id ∉ w1.trace)
      ∧ Event.goScore ∉ w1.trace ∧ Event.run ∉ w1.trace
      ∧ w1.teamTable = [] ∧ w1.injectTable = []
      ∧ (w1.dwConf = badConfig.readConfig
          ∨ badConfig.checkConfig badConfig.readConfig = some w1.dwConf)
      ∧ w1.ctMutex = false ∧ w1.routes = [] :=
  ⟨Or.inl rfl, config_error_is_fatal badConfig [] [] none (Or.inl rfl)⟩

/-- C6: if the persisted inject list already holds an inject, `main` creates no
inject at all, neither the default "Password Changes" inject nor a configured
one, whatever `NoPasswords` is and whatever `injects.conf` contains; the `Inject`
table `main` leaves, in particular when it starts the scheduler, is the table it
found. -/
theorem inject_seeding_first_write_wins (env : Env α β)
    (teamTable : List (TeamData α)) (injectTable : List (Inject β))
    (persistHits : Option (List (Nat × List (String × List Nat))))
    (hne : injectTable ≠ []) :
    (finalWorld (main env (World.boot teamTable injectTable persistHits))).injectTable
        = injectTable
    ∧ (∀ x ok, Event.createInject x ok
        ∉ (finalWorld (main env (World.boot teamTable injectTable persistHits))).trace)
    ∧ createdInjects (finalWorld (main env (World.boot teamTable injectTable persistHits))).trace
        = []
    ∧ (∀ w1, main env (World.boot teamTable injectTable persistHits) = .ok w1 →
        Event.goScore ∈ w1.trace ∧ w1.injectTable = injectTable) := by
  rw [main_eq]
  cases hb : beforeInjects env (World.boot teamTable injectTable persistHits) with
  | error e =>
    obtain ⟨hlt, w1⟩ := e
    obtain ⟨_, hinj, _, _, evs, msg, htr, hsetup, _⟩ := beforeInjects_error hb
    simp only [finalWorld]
    refine ⟨hinj, ?_, ?_, ?_⟩
    · intro x ok hmem
      rw [htr] at hmem
      simp only [World.boot, List.nil_append, List.mem_append, List.mem_singleton] at hmem
      rcases hmem with hmem | hmem
      · have := hsetup _ hmem
        simp [Event.setup] at this
      · cases hmem
    · rw [htr]
      simp [World.boot, createdInjects_append, createdInjects_setup evs hsetup, createdInjects]
    · intro w2 h; cases h
  | ok w1 =>
    obtain ⟨c, _, _, _, _, hinj, _, _, _, _, evs, htr, hsetup, _, _, _⟩ := beforeInjects_ok hb
    have hne1 : w1.injectTable ≠ [] := by rw [hinj]; exact hne
    have hno : ∀ x ok, Event.createInject x ok ∉ w1.trace := by
      intro x ok hmem
      rw [htr] at hmem
      simp only [World.boot, List.nil_append, List.mem_append, List.mem_singleton] at hmem
      rcases hmem with hmem | hmem
      · have := hsetup _ hmem
        simp [Event.setup] at this
      · cases hmem
    have hcr : createdInjects w1.trace = [] := by
      rw [htr]
      simp [World.boot, createdInjects_append, createdInjects_setup evs hsetup, createdInjects]
    simp only
    rcases seedInjects_nonempty env w1 hne1 with ⟨_, h⟩ | ⟨_, h⟩
    · rw [h]
      simp only [finalWorld, serve, World.emit]
      refine ⟨hinj, ?_, ?_, ?_⟩
      · intro x ok hmem
        simp only [List.mem_append, List.mem_cons, List.mem_singleton, List.not_mem_nil,
          or_false] at hmem
        rcases hmem with ((hmem | hmem | hmem) | hmem) | hmem
        · exact hno x ok hmem
        · cases hmem
        · cases hmem
        · cases hmem
        · cases hmem
      · simp [createdInjects_append, hcr, createdInjects]
      · intro w2 hw2
        simp only [Except.ok.injEq] at hw2
        subst hw2
        exact ⟨by simp, hinj⟩
    · rw [h]
      simp only [finalWorld]
      refine ⟨hinj, ?_, ?_, ?_⟩
      · intro x ok hmem
        simp only [List.mem_append, List.mem_cons, List.mem_singleton, List.not_mem_nil,
          or_false] at hmem
        rcases hmem with hmem | hmem | hmem
        · exact hno x ok hmem
        · cases hmem
        · cases hmem
      · simp [createdInjects_append, hcr, createdInjects]
      · intro w2 hw2; cases hw2

theorem inject_seeding_first_write_wins_witness :
    [sampleInject] ≠ []
    ∧ (finalWorld (main sampleEnv (World.boot [] [sampleInject] none))).injectTable
        = [sampleInject]
    ∧ (∀ x ok, Event.createInject x ok
        ∉ (finalWorld (main sampleEnv (World.boot [] [sampleInject] none))).trace)
    ∧ createdInjects (finalWorld (main sampleEnv (World.boot [] [sampleInject] none))).trace
        = []
    ∧ (∀ w1, main sampleEnv (World.boot [] [sampleInject] none) = .ok w1 →
        Event.goScore ∈ w1.trace ∧ w1.injectTable = [sampleInject]) :=
  ⟨by simp, inject_seeding_first_write_wins sampleEnv [] [sampleInject] none (by simp)⟩

/-- C8: on an empty inject table whose query succeeds, with every create succeeding,
the injects `main` creates are, in this order, the "Password Changes" inject with
body "Submit your password changes here!" if and only if `NoPasswords` is false,
then the injects decoded from `injects.conf` in file order (none when the file
cannot be read); with `NoPasswords` true and no readable `injects.conf` the
inject table stays empty. -/
theorem seeded_injects_content_and_order (env : Env α β)
    (teamTable : List (TeamData α))
    (persistHits : Option (List (Nat × List (String × List Nat))))
    (hquery : Event.findInjects true
      ∈ (finalWorld (main env (World.boot teamTable [] persistHits))).trace)
    (hcreate : ∀ tbl x, env.createInjectOk tbl x = true) :
    createdInjects (finalWorld (main env (World.boot teamTable [] persistHits))).trace
        = (if (finalWorld (main env (World.boot teamTable [] persistHits))).dwConf.NoPasswords
            then [] else [pwChangeInject env]) ++ env.injectsConf.injects
    ∧ (finalWorld (main env (World.boot teamTable [] persistHits))).injectTable
        = (if (finalWorld (main env (World.boot teamTable [] persistHits))).dwConf.NoPasswords
            then [] else [pwChangeInject env]) ++ env.injectsConf.injects
    ∧ (pwChangeInject env).Title = "Password Changes"
    ∧ (pwChangeInject env).Body = "Submit your password changes here!"
    ∧ (env.injectsConf = .unreadable → env.injectsConf.injects = [])
    ∧ ((finalWorld (main env (World.boot teamTable [] persistHits))).dwConf.NoPasswords = true →
        env.injectsConf = .unreadable →
        (finalWorld (main env (World.boot teamTable [] persistHits))).injectTable = []) := by
  have hgoal : createdInjects (finalWorld (main env (World.boot teamTable [] persistHits))).trace
        = (if (finalWorld (main env (World.boot teamTable [] persistHits))).dwConf.NoPasswords
            then [] else [pwChangeInject env]) ++ env.injectsConf.injects
      ∧ (finalWorld (main env (World.boot teamTable [] persistHits))).injectTable
        = (if (finalWorld (main env (World.boot teamTable [] persistHits))).dwConf.NoPasswords
            then [] else [pwChangeInject env]) ++ env.injectsConf.injects := by
    rw [main_eq] at hquery ⊢
    cases hb : beforeInjects env (World.boot teamTable [] persistHits) with
    | error e =>
      obtain ⟨hlt, w1⟩ := e
      obtain ⟨_, _, _, _, evs, msg, htr, hsetup, _⟩ := beforeInjects_error hb
      rw [hb] at hquery
      simp only [finalWorld, htr, World.boot, List.nil_append, List.mem_append,
        List.mem_singleton] at hquery
      rcases hquery with hmem | hmem
      · have := hsetup _ hmem
        simp [Event.setup] at this
      · cases hmem
    | ok w1 =>
      obtain ⟨c, _, _, _, _, hinj, _, _, _, _, evs, htr, hsetup, _, _, _⟩ := beforeInjects_ok hb
      rw [hb] at hquery
      simp only at hquery ⊢
      have hpre : Event.findInjects true ∉ w1.trace := by
        intro hmem
        rw [htr] at hmem
        simp only [World.boot, List.nil_append, List.mem_append, List.mem_singleton] at hmem
        rcases hmem with hmem | hmem
        · have := hsetup _ hmem
          simp [Event.setup] at this
        · cases hmem
      have hcr : createdInjects w1.trace = [] := by
        rw [htr]
        simp [World.boot, createdInjects_append, createdInjects_setup evs hsetup,
          createdInjects]
      have hempty : w1.injectTable = [] := by rw [hinj]; rfl
      cases hf : env.findInjectsOk with
      | false =>
        have hs : seedInjects env w1 = .error (.returned,
            { w1 with trace := w1.trace ++ [Event.findInjects false, Event.errorPrint] }) := by
          simp [seedInjects, dbFind, hf, World.emit]
        rw [hs] at hquery
        simp only [finalWorld, List.mem_append, List.mem_cons, List.mem_singleton,
          List.not_mem_nil, or_false] at hquery
        rcases hquery with hmem | hmem | hmem
        · exact absurd hmem hpre
        · cases hmem
        · cases hmem
      | true =>
        obtain ⟨w2, evs2, hres, hconf, htab, htr2, hcr2, _⟩ :=
          seedInjects_first env w1 hempty hf hcreate
        rcases hres with hres | ⟨hres, _⟩
        · simp only [hres, finalWorld, serve, World.emit, hconf, htr2]
          refine ⟨?_, htab⟩
          have : w1.trace ++ Event.findInjects true :: evs2 ++ [Event.goScore] ++ [Event.run]
              = w1.trace ++ ([Event.findInjects true] ++ (evs2 ++ [Event.goScore, Event.run])) := by
            simp
          rw [this, createdInjects_append, createdInjects_append, createdInjects_append,
            hcr, hcr2]
          simp [createdInjects]
        · simp only [hres, finalWorld, hconf, htr2]
          refine ⟨?_, htab⟩
          have : w1.trace ++ Event.findInjects true :: evs2
              = w1.trace ++ ([Event.findInjects true] ++ evs2) := by simp
          rw [this, createdInjects_append, createdInjects_append, hcr, hcr2]
          simp [createdInjects]
  refine ⟨hgoal.1, hgoal.2, rfl, rfl, ?_, ?_⟩
  · intro h; rw [h]; rfl
  · intro hn hu
    rw [hgoal.2, hn, hu]
    rfl

theorem seeded_injects_content_and_order_witness :
    Event.findInjects true ∈ (finalWorld (main sampleEnv firstBoot)).trace
    ∧ (∀ tbl x, sampleEnv.createInjectOk tbl x = true)
    ∧ createdInjects (finalWorld (main sampleEnv firstBoot)).trace
        = [pwChangeInject sampleEnv, sampleInject]
    ∧ (finalWorld (main sampleEnv firstBoot)).injectTable
        = [pwChangeInject sampleEnv, sampleInject] :=
  ⟨by decide, fun _ _ => rfl,
    (seeded_injects_content_and_order sampleEnv [] none (by decide) (fun _ _ => rfl)).1,
    (seeded_injects_content_and_order sampleEnv [] none (by decide) (fun _ _ => rfl)).2.1⟩

/-- C9: the persistence routes (`GET /persist/:token` to `scorePersist`, `GET /persist`
to `viewPersist`) are registered if and only if the `Persists` flag is true, which
is the condition under which `persistHits` is allocated; so in the world `main`
leaves no registered route reaches `scorePersist` while `persistHits` is nil. -/
theorem persist_routes_iff_allocated (c : config α) (w : World α β) (env : Env α β)
    (teamTable : List (TeamData α)) (injectTable : List (Inject β))
    (persistHits : Option (List (Nat × List (String × List Nat)))) :
    ((⟨"GET", "/persist/:token", .scorePersist, false⟩ ∈ registerRoutes c ↔ c.Persists = true)
      ∧ (⟨"GET", "/persist", .viewPersist, false⟩ ∈ registerRoutes c ↔ c.Persists = true)
      ∧ ((∃ rt ∈ registerRoutes c, rt.handler = .scorePersist) ↔ c.Persists = true)
      ∧ ((∃ rt ∈ registerRoutes c, rt.handler = .viewPersist) ↔ c.Persists = true))
    ∧ ((allocPersistHits w).persistHits = (if w.dwConf.Persists then some [] else w.persistHits)
      ∧ (Event.makePersistHits ∈ (allocPersistHits w).trace
          ↔ (w.dwConf.Persists = true ∨ Event.makePersistHits ∈ w.trace)))
    ∧ (∀ rt ∈ (finalWorld (main env (World.boot teamTable injectTable persistHits))).routes,
        rt.handler = .scorePersist →
          (finalWorld (main env (World.boot teamTable injectTable persistHits))).persistHits
            = some []
          ∧ (finalWorld (main env (World.boot teamTable injectTable persistHits))).dwConf.Persists
            = true
          ∧ Event.makePersistHits
            ∈ (finalWorld (main env (World.boot teamTable injectTable persistHits))).trace)
    ∧ ((finalWorld (main env (World.boot teamTable injectTable persistHits))).routes ≠ [] →
        ((∃ rt ∈ (finalWorld (main env (World.boot teamTable injectTable persistHits))).routes,
            rt.handler = .scorePersist)
          ↔ (finalWorld (main env (World.boot teamTable injectTable persistHits))).dwConf.Persists
              = true)
        ∧ (Event.makePersistHits
            ∈ (finalWorld (main env (World.boot teamTable injectTable persistHits))).trace
          ↔ (finalWorld (main env (World.boot teamTable injectTable persistHits))).dwConf.Persists
              = true)) := by
  refine ⟨⟨?_, ?_, registerRoutes_scorePersist c, ?_⟩, ⟨?_, ?_⟩, ?_⟩
  · cases hp : c.Persists <;> cases he : c.EasyPCR <;> simp [registerRoutes, hp, he]
  · cases hp : c.Persists <;> cases he : c.EasyPCR <;> simp [registerRoutes, hp, he]
  · cases hp : c.Persists <;> cases he : c.EasyPCR <;> simp [registerRoutes, hp, he]
  · cases hp : w.dwConf.Persists <;> simp [allocPersistHits, World.emit, hp]
  · cases hp : w.dwConf.Persists <;> simp [allocPersistHits, World.emit, hp]
  · have key : ∀ w2 : World α β,
        finalWorld (main env (World.boot teamTable injectTable persistHits)) = w2 →
        (w2.routes = [] ∨ ∃ c1 : config α, w2.routes = registerRoutes c1
          ∧ w2.dwConf.Persists = c1.Persists
          ∧ w2.persistHits = (if c1.Persists then some [] else persistHits)
          ∧ (Event.makePersistHits ∈ w2.trace ↔ c1.Persists = true)) := by
      intro w2 hw2
      cases hb : beforeInjects env (World.boot teamTable injectTable persistHits) with
      | error e =>
        obtain ⟨hlt, w1⟩ := e
        obtain ⟨_, _, _, hroutes, _⟩ := beforeInjects_error hb
        rw [main_of_before_error hb] at hw2
        left
        rw [← hw2]
        exact hroutes
      | ok w1 =>
        obtain ⟨c1, _, _, _, hconf, _, _, hph, hroutes, _, evs, htr, hsetup, _, hmk, _⟩ :=
          beforeInjects_ok hb
        obtain ⟨evs2, w3, hres, hc3, _, hp3, _, hr3, ht3, hseed⟩ := main_of_before_ok hb
        right
        have hmem : Event.makePersistHits ∈ w3.trace ↔ c1.Persists = true := by
          rw [ht3, htr, ← hmk]
          simp only [World.boot, List.nil_append, List.mem_append, List.mem_singleton]
          constructor
          · rintro ((h | h) | h)
            · exact h
            · cases h
            · have := hseed _ h
              simp [Event.seeding] at this
          · intro h; exact Or.inl (Or.inl h)
        have hfacts : w3.routes = registerRoutes c1 ∧ w3.dwConf.Persists = c1.Persists
            ∧ w3.persistHits = (if c1.Persists then some [] else persistHits) := by
          refine ⟨?_, ?_, ?_⟩
          · rw [hr3, hroutes]; simp [World.boot]
          · rw [hc3, hconf]
          · rw [hp3, hph]; simp [World.boot]
        refine ⟨c1, ?_⟩
        rcases hres with ⟨h, _⟩ | ⟨h, _⟩ | ⟨h, _⟩
        · rw [h] at hw2
          simp only [finalWorld, serve, World.emit] at hw2
          subst hw2
          refine ⟨hfacts.1, hfacts.2.1, hfacts.2.2, ?_⟩
          rw [← hmem]
          simp
        · rw [h] at hw2
          simp only [finalWorld] at hw2
          subst hw2
          exact ⟨hfacts.1, hfacts.2.1, hfacts.2.2, hmem⟩
        · rw [h] at hw2
          simp only [finalWorld] at hw2
          subst hw2
          exact ⟨hfacts.1, hfacts.2.1, hfacts.2.2, hmem⟩
    rcases key _ rfl with h0 | ⟨c1, hr, hp, hph, hmk⟩
    · refine ⟨?_, ?_⟩
      · intro rt hrt; rw [h0] at hrt; cases hrt
      · intro hne; exact absurd h0 hne
    · have hiff := registerRoutes_scorePersist c1
      refine ⟨?_, ?_⟩
      · intro rt hrt hh
        rw [hr] at hrt
        have hP : c1.Persists = true := hiff.mp ⟨rt, hrt, hh⟩
        refine ⟨?_, ?_, ?_⟩
        · rw [hph, hP]; rfl
        · rw [hp, hP]
        · exact hmk.mpr hP
      · intro _
        rw [hr, hp]
        exact ⟨hiff, hmk⟩

theorem persist_routes_iff_allocated_witness :
    (finalWorld (main sampleEnv firstBoot)).routes ≠ []
    ∧ (⟨"GET", "/persist/:token", .scorePersist, false⟩
        ∈ (finalWorld (main sampleEnv firstBoot)).routes)
    ∧ (finalWorld (main sampleEnv firstBoot)).persistHits = some []
    ∧ (Event.makePersistHits ∈ (finalWorld (main sampleEnv firstBoot)).trace
        ↔ (finalWorld (main sampleEnv firstBoot)).dwConf.Persists = true) :=
  ⟨by decide, by decide,
    ((persist_routes_iff_allocated sampleConf firstBoot sampleEnv [] [] none).2.2.1
      ⟨"GET", "/persist/:token", .scorePersist, false⟩ (by decide) rfl).1,
    ((persist_routes_iff_allocated sampleConf firstBoot sampleEnv [] [] none).2.2.2
      (by decide)).2⟩

/-- C10: on every execution of `main` that starts the scheduler or the server, the
credential table mutex has been initialised exactly once, every configured team
has been assigned its 1-based ID, and team and inject seeding have finished, all
strictly before the scheduler is started; the scheduler is started exactly once,
immediately before the server, and never with an uninitialised credential table
lock or a team whose ID is unassigned. -/
theorem boot_order_before_scheduler (env : Env α β)
    (teamTable : List (TeamData α)) (injectTable : List (Inject β))
    (persistHits : Option (List (Nat × List (String × List Nat))))
    (hstart : Event.goScore
        ∈ (finalWorld (main env (World.boot teamTable injectTable persistHits))).trace
      ∨ Event.run ∈ (finalWorld (main env (World.boot teamTable injectTable persistHits))).trace)
    (hlen : (finalWorld (main env (World.boot teamTable injectTable persistHits))).dwConf.Team.length
      ≤ maxInt) :
    ∃ w1 pre mid, main env (World.boot teamTable injectTable persistHits) = .ok w1
      ∧ w1.trace = pre ++ [Event.initCtMutex] ++ mid ++ [Event.goScore, Event.run]
      ∧ (∀ e ∈ pre, e.setup = true) ∧ (∀ e ∈ mid, e.seeding = true)
      ∧ Event.initCtMutex ∉ pre ∧ Event.initCtMutex ∉ mid
      ∧ Event.goScore ∉ pre ++ [Event.initCtMutex] ++ mid
      ∧ Event.run ∉ pre ++ [Event.initCtMutex] ++ mid
      ∧ w1.ctMutex = true
      ∧ (∀ i, i < w1.dwConf.Team.length →
          Event.assignID i (i + 1) ∈ pre
          ∧ (w1.dwConf.Team[i]?).map (fun t => t.ID) = some (i + 1))
      ∧ (∀ t ok, Event.createTeam t ok ∈ w1.trace → Event.createTeam t ok ∈ pre)
      ∧ (∀ x ok, Event.createInject x ok ∈ w1.trace → Event.createInject x ok ∈ mid) := by
  cases hb : beforeInjects env (World.boot teamTable injectTable persistHits) with
  | error e =>
    exfalso
    obtain ⟨hlt, w1⟩ := e
    obtain ⟨_, _, _, _, evs, msg, htr, hsetup, _⟩ := beforeInjects_error hb
    rw [main_of_before_error hb] at hstart
    simp only [finalWorld, htr, World.boot, List.nil_append, List.mem_append,
      List.mem_singleton] at hstart
    rcases hstart with (h | h) | (h | h)
    · have := hsetup _ h; simp [Event.setup] at this
    · cases h
    · have := hsetup _ h; simp [Event.setup] at this
    · cases h
  | ok w0 =>
    obtain ⟨c, _, _, _, hconf, _, hct, _, _, _, evs, htr, hsetup, _, _, hassign⟩ :=
      beforeInjects_ok hb
    obtain ⟨evs2, w2, hres, hc2, _, _, hct2, _, ht2, hseed⟩ := main_of_before_ok hb
    have hpre : ∀ e ∈ evs, e ≠ Event.initCtMutex ∧ e ≠ Event.goScore ∧ e ≠ Event.run
        ∧ ∀ x ok, e ≠ Event.createInject x ok := by
      intro e he
      have := hsetup e he
      refine ⟨?_, ?_, ?_, ?_⟩ <;> (try intro x ok) <;> intro h <;> subst h <;>
        simp [Event.setup] at this
    have hmid : ∀ e ∈ evs2, e ≠ Event.initCtMutex ∧ e ≠ Event.goScore ∧ e ≠ Event.run
        ∧ ∀ t ok, e ≠ Event.createTeam t ok := by
      intro e he
      have := hseed e he
      refine ⟨?_, ?_, ?_, ?_⟩ <;> (try intro x ok) <;> intro h <;> subst h <;>
        simp [Event.seeding] at this
    have htrace : w2.trace = evs ++ [Event.initCtMutex] ++ evs2 := by
      rw [ht2, htr]; simp [World.boot]
    have hnostart : Event.goScore ∉ w2.trace ∧ Event.run ∉ w2.trace := by
      rw [htrace]
      simp only [List.mem_append, List.mem_singleton]
      constructor
      · rintro ((h | h) | h)
        · exact (hpre _ h).2.1 rfl
        · cases h
        · exact (hmid _ h).2.1 rfl
      · rintro ((h | h) | h)
        · exact (hpre _ h).2.2.1 rfl
        · cases h
        · exact (hmid _ h).2.2.1 rfl
    rcases hres with ⟨h, _⟩ | ⟨h, _⟩ | ⟨h, _⟩
    · rw [h] at hlen
      simp only [finalWorld, serve, World.emit] at hlen
      rw [hc2, hconf] at hlen
      simp only [assignTeamIDs_length] at hlen
      refine ⟨serve w2, evs, evs2, h, ?_, hsetup, hseed, ?_, ?_, ?_, ?_, ?_, ?_, ?_, ?_⟩
      · simp [serve, World.emit, htrace]
      · intro hmem; exact (hpre _ hmem).1 rfl
      · intro hmem; exact (hmid _ hmem).1 rfl
      · rw [← htrace]; exact hnostart.1
      · rw [← htrace]; exact hnostart.2
      · simp [serve, World.emit, hct2, hct]
      · intro i hi
        have hdw : (serve w2).dwConf.Team = assignTeamIDs c.Team := by
          simp [serve, World.emit, hc2, hconf]
        rw [hdw] at hi ⊢
        rw [assignTeamIDs_length] at hi
        have hu : uint (i + 1) = i + 1 := uint_of_le_maxInt (by omega)
        refine ⟨?_, assignTeamIDs_ID_at c.Team hlen i hi⟩
        have := hassign i hi
        rwa [hu] at this
      · intro t ok hmem
        simp only [serve, World.emit, htrace, List.mem_append, List.mem_singleton] at hmem
        rcases hmem with ((((hm | hm) | hm) | hm) | hm)
        · exact hm
        · cases hm
        · exact absurd rfl ((hmid _ hm).2.2.2 t ok)
        · cases hm
        · cases hm
      · intro x ok hmem
        simp only [serve, World.emit, htrace, List.mem_append, List.mem_singleton] at hmem
        rcases hmem with ((((hm | hm) | hm) | hm) | hm)
        · exact absurd rfl ((hpre _ hm).2.2.2 x ok)
        · cases hm
        · exact hm
        · cases hm
        · cases hm
    · exfalso
      rw [h] at hstart
      simp only [finalWorld] at hstart
      rcases hstart with hs | hs
      · exact hnostart.1 hs
      · exact hnostart.2 hs
    · exfalso
      rw [h] at hstart
      simp only [finalWorld] at hstart
      rcases hstart with hs | hs
      · exact hnostart.1 hs
      · exact hnostart.2 hs

theorem boot_order_before_scheduler_witness :
    (Event.goScore ∈ (finalWorld (main sampleEnv firstBoot)).trace
      ∨ Event.run ∈ (finalWorld (main sampleEnv firstBoot)).trace)
    ∧ (finalWorld (main sampleEnv firstBoot)).dwConf.Team.length ≤ maxInt
    ∧ ∃ w1 pre mid, main sampleEnv (World.boot [] [] none) = .ok w1
      ∧ w1.trace = pre ++ [Event.initCtMutex] ++ mid ++ [Event.goScore, Event.run]
      ∧ (∀ e ∈ pre, e.setup = true) ∧ (∀ e ∈ mid, e.seeding = true)
      ∧ Event.initCtMutex ∉ pre ∧ Event.initCtMutex ∉ mid
      ∧ Event.goScore ∉ pre ++ [Event.initCtMutex] ++ mid
      ∧ Event.run ∉ pre ++ [Event.initCtMutex] ++ mid
      ∧ w1.ctMutex = true
      ∧ (∀ i, i < w1.dwConf.Team.length →
          Event.assignID i (i + 1) ∈ pre
          ∧ (w1.dwConf.Team[i]?).map (fun t => t.ID) = some (i + 1))
      ∧ (∀ t ok, Event.createTeam t ok ∈ w1.trace → Event.createTeam t ok ∈ pre)
      ∧ (∀ x ok, Event.createInject x ok ∈ w1.trace → Event.createInject x ok ∈ mid) :=
  ⟨by decide, by decide,
    boot_order_before_scheduler sampleEnv [] [] none (by decide) (by decide)⟩

/-- C4, as the code has it: each of the three storage failures of boot is logged and
ends `main` at that operation. When a `TeamData` create fails during seeding, that
failed create is followed at once by `log.Fatal` and the process exits; when the
query of the persisted injects fails, or an inject create fails, that failed call
is followed at once by `errorPrint` and `main` returns. In each of the three
cases neither the scheduler (`go Score`) nor the server (`r.Run`) is started. -/
theorem storage_failure_ends_boot (env : Env α β)
    (teamTable : List (TeamData α)) (injectTable : List (Inject β))
    (persistHits : Option (List (Nat × List (String × List Nat))))
    (e : Event α β)
    (hmem : e ∈ (finalWorld (main env (World.boot teamTable injectTable persistHits))).trace)
    (hkind : (∃ t, e = Event.createTeam t false) ∨ e = Event.findInjects false
      ∨ ∃ x, e = Event.createInject x false) :
    serving (main env (World.boot teamTable injectTable persistHits)) = false
    ∧ Event.goScore ∉ (finalWorld (main env (World.boot teamTable injectTable persistHits))).trace
    ∧ Event.run ∉ (finalWorld (main env (World.boot teamTable injectTable persistHits))).trace
    ∧ ∃ w1 pre,
        ((∃ t, e = Event.createTeam t false)
          ∧ main env (World.boot teamTable injectTable persistHits) = .error (.fatal, w1)
          ∧ w1.trace = pre ++ [e, Event.fatal "unable to save team in database"])
        ∨ ((e = Event.findInjects false ∨ ∃ x, e = Event.createInject x false)
          ∧ main env (World.boot teamTable injectTable persistHits) = .error (.returned, w1)
          ∧ w1.trace = pre ++ [e, Event.errorPrint]) := by
  have hf0 : e.storageFailure = true := by
    rcases hkind with ⟨t, rfl⟩ | rfl | ⟨x, rfl⟩ <;> rfl
  cases hb : beforeInjects env (World.boot teamTable injectTable persistHits) with
  | error r =>
    obtain ⟨hlt, w1⟩ := r
    obtain ⟨hfatal, _, _, _, evs, msg, htr, hsetup, hcase⟩ := beforeInjects_error hb
    subst hfatal
    have hmain := main_of_before_error hb
    rw [hmain] at hmem ⊢
    simp only [finalWorld, serving] at hmem ⊢
    have hno : Event.goScore ∉ w1.trace ∧ Event.run ∉ w1.trace := by
      rw [htr]
      simp only [World.boot, List.nil_append, List.mem_append, List.mem_singleton]
      constructor
      · rintro (h | h)
        · have := hsetup _ h; simp [Event.setup] at this
        · cases h
      · rintro (h | h)
        · have := hsetup _ h; simp [Event.setup] at this
        · cases h
    refine ⟨trivial, hno.1, hno.2, ?_⟩
    rcases hcase with hnone | ⟨pre, t, hevs, hmsg, hpre⟩
    · exfalso
      rw [htr] at hmem
      simp only [World.boot, List.nil_append, List.mem_append, List.mem_singleton] at hmem
      rcases hmem with h | h
      · rw [hnone _ h] at hf0; cases hf0
      · subst h; simp [Event.storageFailure] at hf0
    · have he : e = Event.createTeam t false := by
        rw [htr, hevs] at hmem
        simp only [World.boot, List.nil_append, List.mem_append, List.mem_singleton] at hmem
        rcases hmem with (h | h) | h
        · rw [hpre _ h] at hf0; cases hf0
        · exact h
        · subst h; simp [Event.storageFailure] at hf0
      refine ⟨w1, pre, Or.inl ⟨⟨t, he⟩, rfl, ?_⟩⟩
      rw [htr, hevs, hmsg, he]
      simp [World.boot]
  | ok w0 =>
    obtain ⟨c, _, _, _, _, _, _, _, _, _, evs, htr, hsetup, hok, _, _⟩ := beforeInjects_ok hb
    obtain ⟨evs2, w2, hres, _, _, _, _, _, ht2, hseed⟩ := main_of_before_ok hb
    have htrace : w2.trace = evs ++ [Event.initCtMutex] ++ evs2 := by
      rw [ht2, htr]; simp [World.boot]
    have hclean : (∀ e ∈ evs2, e.storageFailure = false) → ∀ e ∈ w2.trace,
        e.storageFailure = false := by
      intro h2 e he
      rw [htrace] at he
      simp only [List.mem_append, List.mem_singleton] at he
      rcases he with (h | h) | h
      · exact hok _ h
      · subst h; rfl
      · exact h2 _ h
    have hno : Event.goScore ∉ w2.trace ∧ Event.run ∉ w2.trace := by
      rw [htrace]
      simp only [List.mem_append, List.mem_singleton]
      constructor
      · rintro ((h | h) | h)
        · have := hsetup _ h; simp [Event.setup] at this
        · cases h
        · have := hseed _ h; simp [Event.seeding] at this
      · rintro ((h | h) | h)
        · have := hsetup _ h; simp [Event.setup] at this
        · cases h
        · have := hseed _ h; simp [Event.seeding] at this
    rcases hres with ⟨h, h2⟩ | ⟨h, h2⟩ | ⟨h, pre, e1, hevs, hfe, hpre⟩
    · exfalso
      rw [h] at hmem
      simp only [finalWorld, serve, World.emit, List.mem_append, List.mem_singleton] at hmem
      rcases hmem with (hm | hm) | hm
      · rw [hclean h2 _ hm] at hf0; cases hf0
      · subst hm; simp [Event.storageFailure] at hf0
      · subst hm; simp [Event.storageFailure] at hf0
    · exfalso
      rw [h] at hmem
      simp only [finalWorld] at hmem
      rw [hclean h2 _ hmem] at hf0; cases hf0
    · rw [h] at hmem ⊢
      simp only [finalWorld, serving] at hmem ⊢
      have he : e = e1 := by
        rw [htrace, hevs] at hmem
        simp only [List.mem_append, List.mem_cons, List.mem_singleton, List.not_mem_nil,
          or_false] at hmem
        rcases hmem with (hm | hm) | hm | hm | hm
        · rw [hok _ hm] at hf0; cases hf0
        · subst hm; simp [Event.storageFailure] at hf0
        · rw [hpre _ hm] at hf0; cases hf0
        · exact hm
        · subst hm; simp [Event.storageFailure] at hf0
      have hs : e.seeding = true := by
        rw [he]; exact hseed e1 (by rw [hevs]; simp)
      have hk : e = Event.findInjects false ∨ ∃ x, e = Event.createInject x false := by
        rcases hkind with ⟨t, rfl⟩ | hk | hk
        · simp [Event.seeding] at hs
        · exact Or.inl hk
        · exact Or.inr hk
      refine ⟨trivial, hno.1, hno.2, w2, evs ++ [Event.initCtMutex] ++ pre,
        Or.inr ⟨hk, rfl, ?_⟩⟩
      rw [htrace, hevs, he]; simp

theorem storage_failure_ends_boot_witness :
    Event.findInjects false ∈ (finalWorld (main injectQueryFails firstBoot)).trace
    ∧ ((∃ t, (Event.findInjects false : Event String Unit) = Event.createTeam t false)
      ∨ (Event.findInjects false : Event String Unit) = Event.findInjects false
      ∨ ∃ x, (Event.findInjects false : Event String Unit) = Event.createInject x false)
    ∧ serving (main injectQueryFails firstBoot) = false
    ∧ Event.goScore ∉ (finalWorld (main injectQueryFails firstBoot)).trace
    ∧ Event.run ∉ (finalWorld (main injectQueryFails firstBoot)).trace
    ∧ ∃ w1 pre,
        ((∃ t, (Event.findInjects false : Event String Unit) = Event.createTeam t false)
          ∧ main injectQueryFails (World.boot [] [] none) = .error (.fatal, w1)
          ∧ w1.trace = pre ++ [Event.findInjects false,
              Event.fatal "unable to save team in database"])
        ∨ (((Event.findInjects false : Event String Unit) = Event.findInjects false
            ∨ ∃ x, (Event.findInjects false : Event String Unit) = Event.createInject x false)
          ∧ main injectQueryFails (World.boot [] [] none) = .error (.returned, w1)
          ∧ w1.trace = pre ++ [Event.findInjects false, Event.errorPrint]) :=
  ⟨by decide, Or.inr (Or.inl rfl),
    storage_failure_ends_boot injectQueryFails [] [] none (Event.findInjects false)
      (by decide) (Or.inr (Or.inl rfl))⟩

/-- C4 as stated fails: with a valid configuration, a loadable timezone and an open
database, a `TeamData` create that fails during seeding ends `main` by `log.Fatal`,
and a failing query of the persisted injects or a failing inject create makes
`main` return; in none of the three runs is the scheduler or the server started. -/
theorem storage_failure_contained_counterexample :
    ((∃ c, teamCreateFails.checkConfig teamCreateFails.readConfig = some c
        ∧ teamCreateFails.loadLocation c.Timezone = true)
      ∧ teamCreateFails.openOk = true
      ∧ Event.createTeam ⟨2, "bravo"⟩ false
          ∈ (finalWorld (main teamCreateFails firstBoot)).trace
      ∧ (∃ w1, main teamCreateFails firstBoot = .error (.fatal, w1))
      ∧ serving (main teamCreateFails firstBoot) = false
      ∧ Event.goScore ∉ (finalWorld (main teamCreateFails firstBoot)).trace
      ∧ Event.run ∉ (finalWorld (main teamCreateFails firstBoot)).trace)
    ∧ ((∃ c, injectQueryFails.checkConfig injectQueryFails.readConfig = some c)
      ∧ Event.findInjects false ∈ (finalWorld (main injectQueryFails firstBoot)).trace
      ∧ (∃ w1, main injectQueryFails firstBoot = .error (.returned, w1))
      ∧ Event.goScore ∉ (finalWorld (main injectQueryFails firstBoot)).trace
      ∧ Event.run ∉ (finalWorld (main injectQueryFails firstBoot)).trace)
    ∧ ((∃ c, injectCreateFails.checkConfig injectCreateFails.readConfig = some c)
      ∧ Event.createInject (pwChangeInject injectCreateFails) false
          ∈ (finalWorld (main injectCreateFails firstBoot)).trace
      ∧ (∃ w1, main injectCreateFails firstBoot = .error (.returned, w1))
      ∧ Event.goScore ∉ (finalWorld (main injectCreateFails firstBoot)).trace
      ∧ Event.run ∉ (finalWorld (main injectCreateFails firstBoot)).trace) :=
  ⟨⟨⟨sampleConf, rfl, rfl⟩, rfl, by decide, ⟨_, rfl⟩, rfl, by decide, by decide⟩,
    ⟨⟨sampleConf, rfl⟩, by decide, ⟨_, rfl⟩, by decide, by decide⟩,
    ⟨⟨sampleConf, rfl⟩, by decide, ⟨_, rfl⟩, by decide, by decide⟩⟩

end Dwayne
